import Mathlib

/-!
# Zpng filter layer and codec facade: a shallow embedding

This file embeds the codec of `src/zpng.cpp` (thecaptury/Zpng) in Lean 4 and
proves/refutes the frozen claims about it.

Modelling conventions:
* A byte is a `Nat` below 256; buffers are `List Nat`.  All unsigned 8-bit
  wraparound arithmetic is explicit `% 256` (`badd`, `bsub`).
* C pointer walks over buffers become structural recursions consuming lists;
  a C read `p[i]` of a byte becomes `List.getD _ i 0` / `List.headD _ 0`
  (the `calloc`-zeroed surroundings make the default `0` the faithful value
  wherever the C code reads inside an allocated, zero-initialised region;
  reads that would be out of bounds in C are undefined behaviour there and
  are exercised by no theorem below).
* The external entropy coder (zstd) is out of scope per the specification and
  is treated as an exact inverse pair: `compress`/`decompress` are modelled as
  the identity on the packed byte stream and never fail.  Its documented
  worst-case bound `ZSTD_compressBound` is modelled by the published formula
  because `ZPNG_CompressVideoToBuffer` and `ZPNG_MaximumBufferSize` branch
  on it.
* `calloc` never fails in the model (allocation failure is a resource
  concern outside the shallow embedding).
-/

/-- Unsigned 8-bit wraparound addition, as in `uint8_t a = d + prev;`. -/
def badd (a b : Nat) : Nat := (a + b) % 256

/-- Unsigned 8-bit wraparound subtraction, as in `uint8_t d = a - prev;`. -/
def bsub (a b : Nat) : Nat := (a + (256 - b % 256)) % 256

theorem badd_lt (a b : Nat) : badd a b < 256 := Nat.mod_lt _ (by omega)

theorem bsub_lt (a b : Nat) : bsub a b < 256 := Nat.mod_lt _ (by omega)

/-- `(a - p) + p = a` for bytes: the left-neighbour delta is invertible. -/
theorem badd_bsub (a p : Nat) (ha : a < 256) : badd (bsub a p) p = a := by
  unfold badd bsub
  omega

/-- `a - (a - c) = c` for bytes: used to undo the BCIF colour transform. -/
theorem bsub_bsub_self (a c : Nat) (hc : c < 256) : bsub a (bsub a c) = c := by
  unfold bsub
  omega

/-- Image descriptor, mirroring `ZPNG_ImageData` (`Buffer.Data`/`Buffer.Bytes`
collapse to one byte list whose length is the byte count). -/
structure ZPNG_ImageData where
  Buffer : List Nat
  BytesPerChannel : Nat
  Channels : Nat
  HeightPixels : Nat
  StrideBytes : Nat
  WidthPixels : Nat
  IsIFrame : Nat
  deriving DecidableEq, Repr

/-- `pixelBytes` as computed by the facade:
`(BytesPerChannel > 8) ? Channels : BytesPerChannel * Channels`. -/
def pixelBytesOf (d : ZPNG_ImageData) : Nat :=
  if d.BytesPerChannel > 8 then d.Channels else d.BytesPerChannel * d.Channels

/-- `pixelCount = WidthPixels * HeightPixels`. -/
def pixelCountOf (d : ZPNG_ImageData) : Nat := d.WidthPixels * d.HeightPixels

/-- The per-call packed byte count `pixelBytes * pixelCount`. -/
def byteCountOf (d : ZPNG_ImageData) : Nat := pixelBytesOf d * pixelCountOf d

/-- `l.take n`, zero-padded to length `n`: the content of a `calloc`-zeroed
buffer of size `n` whose prefix was overwritten with `l`. -/
def padTo (n : Nat) (l : List Nat) : List Nat :=
  l.take n ++ List.replicate (n - l.length) 0

theorem padTo_length (n : Nat) (l : List Nat) : (padTo n l).length = n := by
  simp only [padTo, List.length_append, List.length_take, List.length_replicate]
  omega

theorem padTo_eq_self (n : Nat) (l : List Nat) (h : l.length = n) :
    padTo n l = l := by
  simp [padTo, h, List.take_of_length_le (le_of_eq h)]

theorem padTo_eq_append (n m : Nat) (l : List Nat) (h : l.length = n) :
    padTo (n + m) l = l ++ List.replicate m 0 := by
  have h1 : l.take (n + m) = l := List.take_of_length_le (by omega)
  simp [padTo, h1, h]

/-! ## Intra filter, generic N-channel (`PackAndFilter<kChannels>`) -/

/-- One pixel read: `input[0..k-1]` (`input[i]` in the C loop). -/
def pixRead (k : Nat) (input : List Nat) : List Nat :=
  List.ofFn (fun i : Fin k => input.getD i.val 0)

/-- One row of `PackAndFilter<k>`: per channel `d = a - prev[i]`,
`prev[i] = a`, advancing `input += k` each pixel, `w` pixels. -/
def packRowN (k : Nat) : Nat → List Nat → List Nat → List Nat
  | 0, _, _ => []
  | w + 1, prev, input =>
      let pix := pixRead k input
      List.zipWith bsub pix prev ++ packRowN k w pix (input.drop k)

/-- One row of `UnpackAndUnfilter<k>`: per channel `a = d + prev[i]`,
`prev[i] = a`. -/
def unpackRowN (k : Nat) : Nat → List Nat → List Nat → List Nat
  | 0, _, _ => []
  | w + 1, prev, input =>
      let a := List.zipWith badd (pixRead k input) prev
      a ++ unpackRowN k w a (input.drop k)

/-- `PackAndFilter<k>`: each of `h` rows independently, `prev` reset to zero. -/
def packRowsN (k w : Nat) : Nat → List Nat → List Nat
  | 0, _ => []
  | h + 1, input =>
      packRowN k w (List.replicate k 0) input ++
        packRowsN k w h (input.drop (w * k))

/-- `UnpackAndUnfilter<k>`: inverse row walk. -/
def unpackRowsN (k w : Nat) : Nat → List Nat → List Nat
  | 0, _ => []
  | h + 1, input =>
      unpackRowN k w (List.replicate k 0) input ++
        unpackRowsN k w h (input.drop (w * k))

theorem pixRead_length (k : Nat) (input : List Nat) :
    (pixRead k input).length = k := by
  simp [pixRead]

theorem pixRead_eq_take (k : Nat) (input : List Nat) (h : k ≤ input.length) :
    pixRead k input = input.take k := by
  apply List.ext_getElem
  · simp [pixRead]
    omega
  · intro i h1 h2
    simp only [pixRead, List.getElem_ofFn, List.getElem_take]
    rw [List.getD_eq_getElem]

theorem packRowN_length (k w : Nat) (prev input : List Nat)
    (hp : prev.length = k) : (packRowN k w prev input).length = w * k := by
  induction w generalizing prev input with
  | zero => simp [packRowN]
  | succ w ih =>
      simp only [packRowN, List.length_append, List.length_zipWith,
        pixRead_length, hp, ih (pixRead k input) (input.drop k) (pixRead_length k input)]
      have h9 : (w + 1) * k = w * k + k := by ring
      omega

theorem packRowsN_length (k w h : Nat) (input : List Nat) :
    (packRowsN k w h input).length = h * (w * k) := by
  induction h generalizing input with
  | zero => simp [packRowsN]
  | succ h ih =>
      simp only [packRowsN, List.length_append,
        packRowN_length k w _ _ (List.length_replicate _ _), ih]
      ring

theorem zipWith_badd_bsub (xs ps : List Nat) (hlen : xs.length = ps.length)
    (hx : ∀ x ∈ xs, x < 256) :
    List.zipWith badd (List.zipWith bsub xs ps) ps = xs := by
  induction xs generalizing ps with
  | nil => simp
  | cons x xs ih =>
      cases ps with
      | nil => simp at hlen
      | cons p ps =>
          simp only [List.zipWith_cons_cons]
          rw [badd_bsub x p (hx x (by simp)), ih ps (by simpa using hlen)
            (fun y hy => hx y (by simp [hy]))]

/-- Row-level inverse: unfiltering the filtered row (plus any junk suffix)
recovers the row bytes. -/
theorem unpackRowN_packRowN (k : Nat) :
    ∀ (w : Nat) (prev input junk : List Nat),
      prev.length = k → (∀ b ∈ input, b < 256) → w * k ≤ input.length →
      unpackRowN k w prev (packRowN k w prev input ++ junk) =
        input.take (w * k) := by
  intro w
  induction w with
  | zero => intro prev input junk _ _ _; simp [unpackRowN, packRowN]
  | succ w ih =>
      intro prev input junk hp hin hlen
      have hk : k ≤ input.length := by
        have : (w + 1) * k = w * k + k := by ring
        omega
      have hpix : pixRead k input = input.take k := pixRead_eq_take k input hk
      have hdlen : (List.zipWith bsub (pixRead k input) prev).length = k := by
        simp [List.length_zipWith, pixRead_length, hp]
      simp only [packRowN, unpackRowN, List.append_assoc]
      have hread : pixRead k
          (List.zipWith bsub (pixRead k input) prev ++
            (packRowN k w (pixRead k input) (input.drop k) ++ junk)) =
          List.zipWith bsub (pixRead k input) prev := by
        rw [pixRead_eq_take _ _ (by simp [hdlen]),
          List.take_append_of_le_length (by omega), List.take_of_length_le (by omega)]
      rw [hread]
      have hcancel : List.zipWith badd (List.zipWith bsub (pixRead k input) prev) prev
          = pixRead k input := by
        apply zipWith_badd_bsub _ _ (by simp [pixRead_length, hp])
        intro x hx
        rw [hpix] at hx
        exact hin x (List.mem_of_mem_take hx)
      rw [hcancel]
      have hdrop : (List.zipWith bsub (pixRead k input) prev ++
            (packRowN k w (pixRead k input) (input.drop k) ++ junk)).drop k =
          packRowN k w (pixRead k input) (input.drop k) ++ junk := by
        rw [List.drop_append_of_le_length (by omega), List.drop_of_length_le (by omega)]
        simp
      have hlen2 : w * k ≤ (input.drop k).length := by
        simp only [List.length_drop]
        have h9 : (w + 1) * k = w * k + k := by ring
        omega
      rw [hdrop, ih (pixRead k input) (input.drop k) junk (pixRead_length k input)
        (fun b hb => hin b (List.mem_of_mem_drop hb)) hlen2]
      rw [hpix]
      have : (w + 1) * k = k + w * k := by ring
      rw [this, List.take_add]

/-- Image-level inverse for the generic N-channel intra filter. -/
theorem unpackRowsN_packRowsN (k w : Nat) :
    ∀ (h : Nat) (input junk : List Nat),
      (∀ b ∈ input, b < 256) → h * (w * k) ≤ input.length →
      unpackRowsN k w h (packRowsN k w h input ++ junk) =
        input.take (h * (w * k)) := by
  intro h
  induction h with
  | zero => intro input junk _ _; simp [unpackRowsN, packRowsN]
  | succ h ih =>
      intro input junk hin hlen
      have hwk : w * k ≤ input.length := by
        have : (h + 1) * (w * k) = h * (w * k) + w * k := by ring
        omega
      have hrowlen : (packRowN k w (List.replicate k 0) input).length = w * k :=
        packRowN_length k w _ _ (List.length_replicate _ _)
      simp only [packRowsN, unpackRowsN, List.append_assoc]
      rw [unpackRowN_packRowN k w (List.replicate k 0) input
        (packRowsN k w h (input.drop (w * k)) ++ junk)
        (List.length_replicate _ _) hin hwk]
      have hdrop : (packRowN k w (List.replicate k 0) input ++
            (packRowsN k w h (input.drop (w * k)) ++ junk)).drop (w * k) =
          packRowsN k w h (input.drop (w * k)) ++ junk := by
        rw [List.drop_append_of_le_length (by omega), List.drop_of_length_le (by omega)]
        simp
      have hlen2 : h * (w * k) ≤ (input.drop (w * k)).length := by
        simp only [List.length_drop]
        have h9 : (h + 1) * (w * k) = h * (w * k) + w * k := by ring
        omega
      rw [hdrop, ih (input.drop (w * k)) junk
        (fun b hb => hin b (List.mem_of_mem_drop hb)) hlen2]
      have : (h + 1) * (w * k) = w * k + h * (w * k) := by ring
      rw [this, List.take_add]

/-! ## Intra filter, RGB specialization (`PackAndFilter<3>` under
`ENABLE_RGB_COLOR_FILTER`): row delta, BCIF colour transform, planar split. -/

/-- One row of `PackAndFilter<3>`: per pixel, row deltas `rd,gd,bd` against
`prev`, then `y = bd`, `u = gd - bd`, `v = gd - rd`, emitted as a `(y,u,v)`
triple (the planar split happens at the image level). -/
def packRGBRow (p0 p1 p2 : Nat) : Nat → List Nat → List (Nat × Nat × Nat)
  | 0, _ => []
  | n + 1, input =>
      let r := input.getD 0 0
      let g := input.getD 1 0
      let b := input.getD 2 0
      let rd := bsub r p0
      let gd := bsub g p1
      let bd := bsub b p2
      (bd, bsub gd bd, bsub gd rd) :: packRGBRow r g b n (input.drop 3)

/-- All rows of `PackAndFilter<3>`, `prev` reset per row. -/
def packRGBRows (w : Nat) : Nat → List Nat → List (Nat × Nat × Nat)
  | 0, _ => []
  | h + 1, input => packRGBRow 0 0 0 w input ++ packRGBRows w h (input.drop (3 * w))

/-- `PackAndFilter<3>`: planar output `Y ++ U ++ V`, each plane of
`planeBytes = width * height` entries written in scan order. -/
def PackAndFilter3 (w h : Nat) (input : List Nat) : List Nat :=
  let ts := packRGBRows w h input
  ts.map (fun t => t.1) ++ ts.map (fun t => t.2.1) ++ ts.map (fun t => t.2.2)

/-- One row of `UnpackAndUnfilter<3>`: reads the three plane streams,
undoes the BCIF transform (`B = y`, `G = u + B`, `r = G - v`, `g = G`,
`b = B`), then adds `prev` and updates it. -/
def unpackRGBRow (p0 p1 p2 : Nat) : Nat → List Nat → List Nat → List Nat → List Nat
  | 0, _, _, _ => []
  | n + 1, ys, us, vs =>
      let y := ys.headD 0
      let u := us.headD 0
      let v := vs.headD 0
      let G := badd u y
      let r := badd (bsub G v) p0
      let g := badd G p1
      let b := badd y p2
      r :: g :: b :: unpackRGBRow r g b n ys.tail us.tail vs.tail

/-- All rows of `UnpackAndUnfilter<3>`, advancing each plane stream by `w`. -/
def unpackRGBRows (w : Nat) : Nat → List Nat → List Nat → List Nat → List Nat
  | 0, _, _, _ => []
  | h + 1, ys, us, vs =>
      unpackRGBRow 0 0 0 w ys us vs ++
        unpackRGBRows w h (ys.drop w) (us.drop w) (vs.drop w)

/-- `UnpackAndUnfilter<3>`: the three plane streams start at offsets
`0`, `planeBytes` and `planeBytes * 2`. -/
def UnpackAndUnfilter3 (w h : Nat) (input : List Nat) : List Nat :=
  unpackRGBRows w h input (input.drop (w * h)) (input.drop (w * h * 2))

theorem packRGBRow_length (p0 p1 p2 n : Nat) (input : List Nat) :
    (packRGBRow p0 p1 p2 n input).length = n := by
  induction n generalizing p0 p1 p2 input with
  | zero => rfl
  | succ n ih => simp [packRGBRow, ih]

theorem packRGBRows_length (w h : Nat) (input : List Nat) :
    (packRGBRows w h input).length = h * w := by
  induction h generalizing input with
  | zero => simp [packRGBRows]
  | succ h ih =>
      simp [packRGBRows, packRGBRow_length, ih]
      ring

/-- Row-level inverse for the RGB path: feeding the three per-row delta
streams (each followed by arbitrary continuation) back through the decoder
recovers the row. -/
theorem unpackRGBRow_packRGBRow :
    ∀ (n : Nat) (p0 p1 p2 : Nat) (input ys2 us2 vs2 : List Nat),
      (∀ b ∈ input, b < 256) → 3 * n ≤ input.length →
      unpackRGBRow p0 p1 p2 n
        ((packRGBRow p0 p1 p2 n input).map (fun t => t.1) ++ ys2)
        ((packRGBRow p0 p1 p2 n input).map (fun t => t.2.1) ++ us2)
        ((packRGBRow p0 p1 p2 n input).map (fun t => t.2.2) ++ vs2) =
        input.take (3 * n) := by
  intro n
  induction n with
  | zero => intro p0 p1 p2 input ys2 us2 vs2 _ _; simp [packRGBRow, unpackRGBRow]
  | succ n ih =>
      intro p0 p1 p2 input ys2 us2 vs2 hin hlen
      rcases input with _ | ⟨r0, input⟩
      · exact absurd hlen (by simp)
      rcases input with _ | ⟨g0, input⟩
      · exact absurd hlen (by simp; omega)
      rcases input with _ | ⟨b0, input⟩
      · exact absurd hlen (by simp; omega)
      have hr0 : r0 < 256 := hin r0 (by simp)
      have hg0 : g0 < 256 := hin g0 (by simp)
      have hb0 : b0 < 256 := hin b0 (by simp)
      simp only [packRGBRow, List.getD_cons_zero, List.getD_cons_succ,
        List.drop_succ_cons, List.drop_zero, List.map_cons, List.cons_append,
        unpackRGBRow, List.headD_cons, List.tail_cons]
      rw [badd_bsub (bsub g0 p1) (bsub b0 p2) (bsub_lt g0 p1),
        bsub_bsub_self (bsub g0 p1) (bsub r0 p0) (bsub_lt r0 p0),
        badd_bsub r0 p0 hr0, badd_bsub g0 p1 hg0, badd_bsub b0 p2 hb0]
      rw [ih r0 g0 b0 input ys2 us2 vs2
        (fun b hb => hin b (by simp [hb])) (by simp at hlen; omega)]
      rw [show 3 * (n + 1) = 3 * n + 1 + 1 + 1 from by ring]
      simp [List.take_succ_cons]

/-- Image-level inverse for all rows of the RGB path. -/
theorem unpackRGBRows_packRGBRows (w : Nat) :
    ∀ (h : Nat) (input ys2 us2 vs2 : List Nat),
      (∀ b ∈ input, b < 256) → h * (3 * w) ≤ input.length →
      unpackRGBRows w h
        ((packRGBRows w h input).map (fun t => t.1) ++ ys2)
        ((packRGBRows w h input).map (fun t => t.2.1) ++ us2)
        ((packRGBRows w h input).map (fun t => t.2.2) ++ vs2) =
        input.take (h * (3 * w)) := by
  intro h
  induction h with
  | zero => intro input ys2 us2 vs2 _ _; simp [packRGBRows, unpackRGBRows]
  | succ h ih =>
      intro input ys2 us2 vs2 hin hlen
      have harith : (h + 1) * (3 * w) = 3 * w + h * (3 * w) := by ring
      have hw3 : 3 * w ≤ input.length := by omega
      simp only [packRGBRows, unpackRGBRows, List.map_append, List.append_assoc]
      rw [unpackRGBRow_packRGBRow w 0 0 0 input _ _ _ hin hw3]
      have hdropstream : ∀ (f : Nat × Nat × Nat → Nat) (t : List Nat),
          ((packRGBRow 0 0 0 w input).map f ++ t).drop w = t := by
        intro f t
        rw [List.drop_append_of_le_length (by simp [packRGBRow_length]),
          List.drop_of_length_le (by simp [packRGBRow_length])]
        simp
      rw [hdropstream, hdropstream, hdropstream]
      have hlen2 : h * (3 * w) ≤ (input.drop (3 * w)).length := by
        simp only [List.length_drop]
        omega
      rw [ih (input.drop (3 * w)) ys2 us2 vs2
        (fun b hb => hin b (List.mem_of_mem_drop hb)) hlen2]
      rw [harith, List.take_add]

/-! ## Intra filter, RGBA specialization (`PackAndFilter<4>`): as RGB plus an
alpha plane carried through the row delta untouched by the colour transform. -/

/-- One row of `PackAndFilter<4>`: emits `(y, u, v, a)` per pixel. -/
def packRGBARow (p0 p1 p2 p3 : Nat) : Nat → List Nat → List (Nat × Nat × Nat × Nat)
  | 0, _ => []
  | n + 1, input =>
      let r := input.getD 0 0
      let g := input.getD 1 0
      let b := input.getD 2 0
      let a := input.getD 3 0
      let rd := bsub r p0
      let gd := bsub g p1
      let bd := bsub b p2
      let ad := bsub a p3
      (bd, bsub gd bd, bsub gd rd, ad) :: packRGBARow r g b a n (input.drop 4)

/-- All rows of `PackAndFilter<4>`, `prev` reset per row. -/
def packRGBARows (w : Nat) : Nat → List Nat → List (Nat × Nat × Nat × Nat)
  | 0, _ => []
  | h + 1, input => packRGBARow 0 0 0 0 w input ++ packRGBARows w h (input.drop (4 * w))

/-- `PackAndFilter<4>`: planar output `Y ++ U ++ V ++ A`. -/
def PackAndFilter4 (w h : Nat) (input : List Nat) : List Nat :=
  let ts := packRGBARows w h input
  ts.map (fun t => t.1) ++ ts.map (fun t => t.2.1) ++
    ts.map (fun t => t.2.2.1) ++ ts.map (fun t => t.2.2.2)

/-- One row of `UnpackAndUnfilter<4>`. -/
def unpackRGBARow (p0 p1 p2 p3 : Nat) :
    Nat → List Nat → List Nat → List Nat → List Nat → List Nat
  | 0, _, _, _, _ => []
  | n + 1, ys, us, vs, as0 =>
      let y := ys.headD 0
      let u := us.headD 0
      let v := vs.headD 0
      let ad := as0.headD 0
      let G := badd u y
      let r := badd (bsub G v) p0
      let g := badd G p1
      let b := badd y p2
      let a := badd ad p3
      r :: g :: b :: a :: unpackRGBARow r g b a n ys.tail us.tail vs.tail as0.tail

/-- All rows of `UnpackAndUnfilter<4>`. -/
def unpackRGBARows (w : Nat) : Nat → List Nat → List Nat → List Nat → List Nat → List Nat
  | 0, _, _, _, _ => []
  | h + 1, ys, us, vs, as0 =>
      unpackRGBARow 0 0 0 0 w ys us vs as0 ++
        unpackRGBARows w h (ys.drop w) (us.drop w) (vs.drop w) (as0.drop w)

/-- `UnpackAndUnfilter<4>`: plane streams at offsets `0`, `planeBytes`,
`planeBytes * 2`, `planeBytes * 3`. -/
def UnpackAndUnfilter4 (w h : Nat) (input : List Nat) : List Nat :=
  unpackRGBARows w h input (input.drop (w * h)) (input.drop (w * h * 2))
    (input.drop (w * h * 3))

theorem packRGBARow_length (p0 p1 p2 p3 n : Nat) (input : List Nat) :
    (packRGBARow p0 p1 p2 p3 n input).length = n := by
  induction n generalizing p0 p1 p2 p3 input with
  | zero => rfl
  | succ n ih => simp [packRGBARow, ih]

theorem packRGBARows_length (w h : Nat) (input : List Nat) :
    (packRGBARows w h input).length = h * w := by
  induction h generalizing input with
  | zero => simp [packRGBARows]
  | succ h ih =>
      simp [packRGBARows, packRGBARow_length, ih]
      ring

/-- Row-level inverse for the RGBA path. -/
theorem unpackRGBARow_packRGBARow :
    ∀ (n : Nat) (p0 p1 p2 p3 : Nat) (input ys2 us2 vs2 as2 : List Nat),
      (∀ b ∈ input, b < 256) → 4 * n ≤ input.length →
      unpackRGBARow p0 p1 p2 p3 n
        ((packRGBARow p0 p1 p2 p3 n input).map (fun t => t.1) ++ ys2)
        ((packRGBARow p0 p1 p2 p3 n input).map (fun t => t.2.1) ++ us2)
        ((packRGBARow p0 p1 p2 p3 n input).map (fun t => t.2.2.1) ++ vs2)
        ((packRGBARow p0 p1 p2 p3 n input).map (fun t => t.2.2.2) ++ as2) =
        input.take (4 * n) := by
  intro n
  induction n with
  | zero =>
      intro p0 p1 p2 p3 input ys2 us2 vs2 as2 _ _
      simp [packRGBARow, unpackRGBARow]
  | succ n ih =>
      intro p0 p1 p2 p3 input ys2 us2 vs2 as2 hin hlen
      rcases input with _ | ⟨r0, input⟩
      · exact absurd hlen (by simp)
      rcases input with _ | ⟨g0, input⟩
      · exact absurd hlen (by simp; omega)
      rcases input with _ | ⟨b0, input⟩
      · exact absurd hlen (by simp; omega)
      rcases input with _ | ⟨a0, input⟩
      · exact absurd hlen (by simp; omega)
      have hr0 : r0 < 256 := hin r0 (by simp)
      have hg0 : g0 < 256 := hin g0 (by simp)
      have hb0 : b0 < 256 := hin b0 (by simp)
      have ha0 : a0 < 256 := hin a0 (by simp)
      simp only [packRGBARow, List.getD_cons_zero, List.getD_cons_succ,
        List.drop_succ_cons, List.drop_zero, List.map_cons, List.cons_append,
        unpackRGBARow, List.headD_cons, List.tail_cons]
      rw [badd_bsub (bsub g0 p1) (bsub b0 p2) (bsub_lt g0 p1),
        bsub_bsub_self (bsub g0 p1) (bsub r0 p0) (bsub_lt r0 p0),
        badd_bsub r0 p0 hr0, badd_bsub g0 p1 hg0, badd_bsub b0 p2 hb0,
        badd_bsub a0 p3 ha0]
      rw [ih r0 g0 b0 a0 input ys2 us2 vs2 as2
        (fun b hb => hin b (by simp [hb])) (by simp at hlen; omega)]
      rw [show 4 * (n + 1) = 4 * n + 1 + 1 + 1 + 1 from by ring]
      simp [List.take_succ_cons]

/-- Image-level inverse for all rows of the RGBA path. -/
theorem unpackRGBARows_packRGBARows (w : Nat) :
    ∀ (h : Nat) (input ys2 us2 vs2 as2 : List Nat),
      (∀ b ∈ input, b < 256) → h * (4 * w) ≤ input.length →
      unpackRGBARows w h
        ((packRGBARows w h input).map (fun t => t.1) ++ ys2)
        ((packRGBARows w h input).map (fun t => t.2.1) ++ us2)
        ((packRGBARows w h input).map (fun t => t.2.2.1) ++ vs2)
        ((packRGBARows w h input).map (fun t => t.2.2.2) ++ as2) =
        input.take (h * (4 * w)) := by
  intro h
  induction h with
  | zero => intro input ys2 us2 vs2 as2 _ _; simp [packRGBARows, unpackRGBARows]
  | succ h ih =>
      intro input ys2 us2 vs2 as2 hin hlen
      have harith : (h + 1) * (4 * w) = 4 * w + h * (4 * w) := by ring
      have hw4 : 4 * w ≤ input.length := by omega
      simp only [packRGBARows, unpackRGBARows, List.map_append, List.append_assoc]
      rw [unpackRGBARow_packRGBARow w 0 0 0 0 input _ _ _ _ hin hw4]
      have hdropstream : ∀ (f : Nat × Nat × Nat × Nat → Nat) (t : List Nat),
          ((packRGBARow 0 0 0 0 w input).map f ++ t).drop w = t := by
        intro f t
        rw [List.drop_append_of_le_length (by simp [packRGBARow_length]),
          List.drop_of_length_le (by simp [packRGBARow_length])]
        simp
      rw [hdropstream, hdropstream, hdropstream, hdropstream]
      have hlen2 : h * (4 * w) ≤ (input.drop (4 * w)).length := by
        simp only [List.length_drop]
        omega
      rw [ih (input.drop (4 * w)) ys2 us2 vs2 as2
        (fun b hb => hin b (List.mem_of_mem_drop hb)) hlen2]
      rw [harith, List.take_add]

/-! ## Intra filter, Bayer XGGY (`PackAndFilterXGGY` under
`ENABLE_BAYER_FILTER`), selected when `BytesPerChannel > 8`.  Rows are
processed in pairs; each half-row is a stride-2 scan with its own
2-entry `prev`. -/

/-- One half-row scan (`for x = 0; x < width; x += 2`): reads `input[0]`,
`input[1]`, emits their deltas against `prev`, updates `prev` from the raw
values, advances `input += 2`.  `n` is the iteration count `ceil(w / 2)`. -/
def xggyScan (p0 p1 : Nat) : Nat → List Nat → List (Nat × Nat)
  | 0, _ => []
  | n + 1, input =>
      let a := input.getD 0 0
      let b := input.getD 1 0
      (bsub a p0, bsub b p1) :: xggyScan a b n (input.drop 2)

/-- The row-pair loop of `PackAndFilterXGGY`: for each pair, the even scan
produces `(r, g)` deltas and the odd scan `(g, b)` deltas. -/
def xggyRowPairs (n : Nat) : Nat → List Nat → List (List (Nat × Nat) × List (Nat × Nat))
  | 0, _ => []
  | hp + 1, input =>
      (xggyScan 0 0 n input, xggyScan 0 0 n (input.drop (2 * n))) ::
        xggyRowPairs n hp (input.drop (4 * n))

/-- `PackAndFilterXGGY`: plane layout `R ++ B ++ G` (`planeBytes = w*h/4`
for the R and B planes; the G plane interleaves even-row then odd-row G
deltas per row pair).  The concatenation equals the C offset writes at
`output`, `output + planeBytes` and `output + 2*planeBytes` exactly when
both dimensions are even — the Bayer layout's validity domain; at odd
dimensions the C plane regions overlap and the interleaved pointer
writes produce different bytes, so every theorem exercising this filter
carries evenness hypotheses. -/
def PackAndFilterXGGY (w h : Nat) (input : List Nat) : List Nat :=
  let prs := xggyRowPairs ((w + 1) / 2) ((h + 1) / 2) input
  (prs.map (fun pr => pr.1.map Prod.fst)).flatten ++
    (prs.map (fun pr => pr.2.map Prod.snd)).flatten ++
    (prs.map (fun pr => pr.1.map Prod.snd ++ pr.2.map Prod.fst)).flatten

/-- One half-row of `UnpackAndUnfilterXGGY`: reads one byte from each of two
plane streams, adds `prev`, emits the interleaved pair, updates `prev`. -/
def xggyUnscan (p0 p1 : Nat) : Nat → List Nat → List Nat → List Nat
  | 0, _, _ => []
  | n + 1, xs, ys =>
      let a := badd (xs.headD 0) p0
      let b := badd (ys.headD 0) p1
      a :: b :: xggyUnscan a b n xs.tail ys.tail

/-- The row-pair loop of `UnpackAndUnfilterXGGY`: even half-row from the R
and G streams, odd half-row from the G (continued) and B streams. -/
def xggyUnRowPairs (n : Nat) : Nat → List Nat → List Nat → List Nat → List Nat
  | 0, _, _, _ => []
  | hp + 1, rs, bs, gs =>
      xggyUnscan 0 0 n rs gs ++ xggyUnscan 0 0 n (gs.drop n) bs ++
        xggyUnRowPairs n hp (rs.drop n) (bs.drop n) (gs.drop (2 * n))

/-- `UnpackAndUnfilterXGGY`: plane streams at `0`, `planeBytes`,
`planeBytes * 2` with `planeBytes = w * h / 4`. -/
def UnpackAndUnfilterXGGY (w h : Nat) (input : List Nat) : List Nat :=
  xggyUnRowPairs ((w + 1) / 2) ((h + 1) / 2) input (input.drop (w * h / 4))
    (input.drop (w * h / 4 * 2))

theorem xggyScan_length (p0 p1 n : Nat) (input : List Nat) :
    (xggyScan p0 p1 n input).length = n := by
  induction n generalizing p0 p1 input with
  | zero => rfl
  | succ n ih => simp [xggyScan, ih]

/-- Half-row inverse: unscanning the two delta streams (with any
continuations) recovers the interleaved half-row bytes. -/
theorem xggyUnscan_xggyScan :
    ∀ (n : Nat) (p0 p1 : Nat) (input xs2 ys2 : List Nat),
      (∀ b ∈ input, b < 256) → 2 * n ≤ input.length →
      xggyUnscan p0 p1 n
        ((xggyScan p0 p1 n input).map Prod.fst ++ xs2)
        ((xggyScan p0 p1 n input).map Prod.snd ++ ys2) =
        input.take (2 * n) := by
  intro n
  induction n with
  | zero => intro p0 p1 input xs2 ys2 _ _; simp [xggyScan, xggyUnscan]
  | succ n ih =>
      intro p0 p1 input xs2 ys2 hin hlen
      rcases input with _ | ⟨a0, input⟩
      · exact absurd hlen (by simp)
      rcases input with _ | ⟨b0, input⟩
      · exact absurd hlen (by simp; omega)
      have ha0 : a0 < 256 := hin a0 (by simp)
      have hb0 : b0 < 256 := hin b0 (by simp)
      simp only [xggyScan, List.getD_cons_zero, List.getD_cons_succ,
        List.drop_succ_cons, List.drop_zero, List.map_cons, List.cons_append,
        xggyUnscan, List.headD_cons, List.tail_cons]
      rw [badd_bsub a0 p0 ha0, badd_bsub b0 p1 hb0]
      rw [ih a0 b0 input xs2 ys2
        (fun b hb => hin b (by simp [hb])) (by simp at hlen; omega)]
      rw [show 2 * (n + 1) = 2 * n + 1 + 1 from by ring]
      simp [List.take_succ_cons]

/-- Row-pair-level inverse for the Bayer path: the three plane streams,
each its own per-pair segments followed by any continuation, reconstruct
the original row pairs. -/
theorem xggyUnRowPairs_xggyRowPairs (n : Nat) :
    ∀ (hp : Nat) (input rs2 bs2 gs2 : List Nat),
      (∀ b ∈ input, b < 256) → hp * (4 * n) ≤ input.length →
      xggyUnRowPairs n hp
        (((xggyRowPairs n hp input).map (fun pr => pr.1.map Prod.fst)).flatten ++ rs2)
        (((xggyRowPairs n hp input).map (fun pr => pr.2.map Prod.snd)).flatten ++ bs2)
        (((xggyRowPairs n hp input).map
            (fun pr => pr.1.map Prod.snd ++ pr.2.map Prod.fst)).flatten ++ gs2) =
        input.take (hp * (4 * n)) := by
  intro hp
  induction hp with
  | zero => intro input rs2 bs2 gs2 _ _; simp [xggyRowPairs, xggyUnRowPairs]
  | succ hp ih =>
      intro input rs2 bs2 gs2 hin hlen
      have harith : (hp + 1) * (4 * n) = 2 * n + (2 * n + hp * (4 * n)) := by ring
      have h2n : 2 * n ≤ input.length := by omega
      have hdin : ∀ m : Nat, ∀ b ∈ input.drop m, b < 256 :=
        fun m b hb => hin b (List.mem_of_mem_drop hb)
      have h2n2 : 2 * n ≤ (input.drop (2 * n)).length := by
        simp only [List.length_drop]
        omega
      simp only [xggyRowPairs, xggyUnRowPairs, List.map_cons, List.flatten_cons,
        List.append_assoc]
      rw [xggyUnscan_xggyScan n 0 0 input _ _ hin h2n]
      have hscanmap : ∀ (f : Nat × Nat → Nat) (p0 p1 : Nat) (l : List Nat),
          ((xggyScan p0 p1 n l).map f).length = n := by
        intro f p0 p1 l
        simp [xggyScan_length]
      have hgdrop :
          (((xggyScan 0 0 n input).map Prod.snd ++
              ((xggyScan 0 0 n (input.drop (2 * n))).map Prod.fst ++
                ((((xggyRowPairs n hp (input.drop (4 * n))).map
                    (fun pr => pr.1.map Prod.snd ++ pr.2.map Prod.fst)).flatten ++ gs2)))).drop n) =
            (xggyScan 0 0 n (input.drop (2 * n))).map Prod.fst ++
              ((((xggyRowPairs n hp (input.drop (4 * n))).map
                  (fun pr => pr.1.map Prod.snd ++ pr.2.map Prod.fst)).flatten ++ gs2)) := by
        rw [List.drop_append_of_le_length (by rw [hscanmap]),
          List.drop_of_length_le (by rw [hscanmap])]
        simp
      rw [hgdrop]
      rw [xggyUnscan_xggyScan n 0 0 (input.drop (2 * n)) _ _ (hdin (2 * n)) h2n2]
      have hdropseg : ∀ (f : Nat × Nat → Nat) (p0 p1 : Nat) (l : List Nat) (t : List Nat),
          ((xggyScan p0 p1 n l).map f ++ t).drop n = t := by
        intro f p0 p1 l t
        rw [List.drop_append_of_le_length (by rw [hscanmap]),
          List.drop_of_length_le (by rw [hscanmap])]
        simp
      have hdropseg2 : ∀ (t : List Nat),
          (((xggyScan 0 0 n input).map Prod.snd ++
            ((xggyScan 0 0 n (input.drop (2 * n))).map Prod.fst ++ t))).drop (2 * n) = t := by
        intro t
        rw [show 2 * n = n + n from by ring, ← List.drop_drop, hdropseg, hdropseg]
      rw [hdropseg, hdropseg, hdropseg2]
      have hlen2 : hp * (4 * n) ≤ (input.drop (4 * n)).length := by
        simp only [List.length_drop]
        have h9 : (hp + 1) * (4 * n) = 4 * n + hp * (4 * n) := by ring
        omega
      rw [ih (input.drop (4 * n)) rs2 bs2 gs2 (hdin (4 * n)) hlen2]
      rw [harith, List.take_add, List.take_add,
        show (input.drop (2 * n)).drop (2 * n) = input.drop (4 * n) from by
          rw [List.drop_drop, show 2 * n + 2 * n = 4 * n from by ring]]

/-! ## Inter filter, video delta (`PackAndFilterVideo<kChannels>` /
`UnpackAndUnfilterVideo<kChannels>`).  The `y`/`x`/`i` loops of the C code
walk the current, reference and output buffers strictly sequentially, one
byte per innermost step, `height * width * kChannels` steps in total, so
all channel widths are embedded by one recursion with that fuel. -/

/-- The inner loop of `PackAndFilterVideo`: `diff = (int)cur[i] - ref[i]`;
in-range emits `(int8_t)diff` (two's complement, `bsub`), out-of-range
emits the escape byte `0x80`, appends `cur[i]` to the overflow region and
bumps the count — unless the count already equals 1000, in which case the
whole pass is abandoned (`none`). -/
def packVideoGo : Nat → Nat → List Nat → List Nat → Option (List Nat × List Nat × Nat)
  | 0, cnt, _, _ => some ([], [], cnt)
  | n + 1, cnt, cur, ref =>
      let a := cur.headD 0
      let r := ref.headD 0
      if 127 < (a : Int) - r ∨ (a : Int) - r < -127 then
        if cnt = 1000 then none
        else
          match packVideoGo n (cnt + 1) cur.tail ref.tail with
          | none => none
          | some (m, o, c) => some (128 :: m, a :: o, c)
      else
        match packVideoGo n cnt cur.tail ref.tail with
        | none => none
        | some (m, o, c) => some (bsub a r :: m, o, c)

/-- The inner loop of `UnpackAndUnfilterVideo`: byte `0x80` consumes the
next overflow byte literally, anything else is added to the reference
byte. -/
def unpackVideoGo : Nat → List Nat → List Nat → List Nat → List Nat
  | 0, _, _, _ => []
  | n + 1, input, ref, ov =>
      if input.headD 0 = 128 then
        ov.headD 0 :: unpackVideoGo n input.tail ref.tail ov.tail
      else
        badd (ref.headD 0) (input.headD 0) :: unpackVideoGo n input.tail ref.tail ov

/-- Number of out-of-range deltas (`|diff| > 127`) along the same walk. -/
def oorCount : Nat → List Nat → List Nat → Nat
  | 0, _, _ => 0
  | n + 1, cur, ref =>
      (if 127 < (cur.headD 0 : Int) - ref.headD 0 ∨
          (cur.headD 0 : Int) - ref.headD 0 < -127 then 1 else 0) +
        oorCount n cur.tail ref.tail

/-- An in-range signed delta is never stored as the escape byte `0x80`. -/
theorem bsub_ne_128 (a r : Nat)
    (h : ¬(127 < (a : Int) - r ∨ (a : Int) - r < -127)) : bsub a r ≠ 128 := by
  unfold bsub
  omega

/-- Decoding `ref + (cur - ref)` gives back `cur` for bytes. -/
theorem badd_bsub_left (a r : Nat) (ha : a < 256) : badd r (bsub a r) = a := by
  unfold badd bsub
  omega

theorem packVideoGo_main_length :
    ∀ (n cnt : Nat) (cur ref m o : List Nat) (c : Nat),
      packVideoGo n cnt cur ref = some (m, o, c) → m.length = n := by
  intro n
  induction n with
  | zero =>
      intro cnt cur ref m o c hp
      simp only [packVideoGo, Option.some.injEq, Prod.mk.injEq] at hp
      obtain ⟨h1, _, _⟩ := hp
      subst h1
      rfl
  | succ n ih =>
      intro cnt cur ref m o c hp
      simp only [packVideoGo] at hp
      by_cases hoor : 127 < (cur.headD 0 : Int) - ref.headD 0 ∨
          (cur.headD 0 : Int) - ref.headD 0 < -127
      · rw [if_pos hoor] at hp
        by_cases hc : cnt = 1000
        · rw [if_pos hc] at hp
          exact absurd hp (by simp)
        · rw [if_neg hc] at hp
          cases hrec : packVideoGo n (cnt + 1) cur.tail ref.tail with
          | none => rw [hrec] at hp; exact absurd hp (by simp)
          | some t =>
              obtain ⟨m1, o1, c1⟩ := t
              rw [hrec] at hp
              simp only [Option.some.injEq, Prod.mk.injEq] at hp
              obtain ⟨h1, _, _⟩ := hp
              subst h1
              simp [ih _ _ _ _ _ _ hrec]
      · rw [if_neg hoor] at hp
        cases hrec : packVideoGo n cnt cur.tail ref.tail with
        | none => rw [hrec] at hp; exact absurd hp (by simp)
        | some t =>
            obtain ⟨m1, o1, c1⟩ := t
            rw [hrec] at hp
            simp only [Option.some.injEq, Prod.mk.injEq] at hp
            obtain ⟨h1, _, _⟩ := hp
            subst h1
            simp [ih _ _ _ _ _ _ hrec]

/-- The inter pass succeeds exactly when the running count plus the
remaining out-of-range deltas stays within 1000. -/
theorem packVideoGo_isSome_iff :
    ∀ (n cnt : Nat) (cur ref : List Nat), cnt ≤ 1000 →
      ((packVideoGo n cnt cur ref).isSome ↔
        cnt + oorCount n cur ref ≤ 1000) := by
  intro n
  induction n with
  | zero =>
      intro cnt cur ref hc
      simp [packVideoGo, oorCount, hc]
  | succ n ih =>
      intro cnt cur ref hc
      simp only [packVideoGo, oorCount]
      by_cases hoor : 127 < (cur.headD 0 : Int) - ref.headD 0 ∨
          (cur.headD 0 : Int) - ref.headD 0 < -127
      · rw [if_pos hoor, if_pos hoor]
        by_cases hcnt : cnt = 1000
        · rw [if_pos hcnt]
          subst hcnt
          simp
        · rw [if_neg hcnt]
          cases hrec : packVideoGo n (cnt + 1) cur.tail ref.tail with
          | none =>
              have hiff := ih (cnt + 1) cur.tail ref.tail (by omega)
              rw [hrec] at hiff
              simp only [Option.isSome_none, Bool.false_eq_true, false_iff] at hiff
              simp only [Option.isSome_none, Bool.false_eq_true, false_iff]
              omega
          | some t =>
              have hiff := ih (cnt + 1) cur.tail ref.tail (by omega)
              rw [hrec] at hiff
              simp only [Option.isSome_some, true_iff] at hiff
              simp only [Option.isSome_some, true_iff]
              omega
      · rw [if_neg hoor, if_neg hoor]
        cases hrec : packVideoGo n cnt cur.tail ref.tail with
        | none =>
            have hiff := ih cnt cur.tail ref.tail hc
            rw [hrec] at hiff
            simp only [Option.isSome_none, Bool.false_eq_true, false_iff] at hiff
            simp only [Option.isSome_none, Bool.false_eq_true, false_iff]
            omega
        | some t =>
            have hiff := ih cnt cur.tail ref.tail hc
            rw [hrec] at hiff
            simp only [Option.isSome_some, true_iff] at hiff
            simp only [Option.isSome_some, true_iff]
            omega

/-- On success the returned count is the running count plus the number of
out-of-range deltas seen. -/
theorem packVideoGo_count :
    ∀ (n cnt : Nat) (cur ref m o : List Nat) (c : Nat),
      packVideoGo n cnt cur ref = some (m, o, c) →
      c = cnt + oorCount n cur ref := by
  intro n
  induction n with
  | zero =>
      intro cnt cur ref m o c hp
      simp only [packVideoGo, Option.some.injEq, Prod.mk.injEq] at hp
      obtain ⟨_, _, h3⟩ := hp
      subst h3
      simp [oorCount]
  | succ n ih =>
      intro cnt cur ref m o c hp
      simp only [packVideoGo] at hp
      simp only [oorCount]
      by_cases hoor : 127 < (cur.headD 0 : Int) - ref.headD 0 ∨
          (cur.headD 0 : Int) - ref.headD 0 < -127
      · rw [if_pos hoor] at hp
        rw [if_pos hoor]
        by_cases hc : cnt = 1000
        · rw [if_pos hc] at hp
          exact absurd hp (by simp)
        · rw [if_neg hc] at hp
          cases hrec : packVideoGo n (cnt + 1) cur.tail ref.tail with
          | none => rw [hrec] at hp; exact absurd hp (by simp)
          | some t =>
              obtain ⟨m1, o1, c1⟩ := t
              rw [hrec] at hp
              simp only [Option.some.injEq, Prod.mk.injEq] at hp
              obtain ⟨_, _, h3⟩ := hp
              have := ih _ _ _ _ _ _ hrec
              omega
      · rw [if_neg hoor] at hp
        rw [if_neg hoor]
        cases hrec : packVideoGo n cnt cur.tail ref.tail with
        | none => rw [hrec] at hp; exact absurd hp (by simp)
        | some t =>
            obtain ⟨m1, o1, c1⟩ := t
            rw [hrec] at hp
            simp only [Option.some.injEq, Prod.mk.injEq] at hp
            obtain ⟨_, _, h3⟩ := hp
            have := ih _ _ _ _ _ _ hrec
            omega

/-- Inverse of the inter pass: decoding the main stream against the same
reference, with the overflow region appended after it (both followed by
arbitrary zero-fill), recovers the current bytes. -/
theorem unpackVideoGo_packVideoGo :
    ∀ (n cnt : Nat) (cur ref m o : List Nat) (c : Nat) (z zo : List Nat),
      (∀ b ∈ cur, b < 256) → n ≤ cur.length →
      packVideoGo n cnt cur ref = some (m, o, c) →
      unpackVideoGo n (m ++ z) ref (o ++ zo) = cur.take n := by
  intro n
  induction n with
  | zero =>
      intro cnt cur ref m o c z zo _ _ hp
      simp only [packVideoGo, Option.some.injEq, Prod.mk.injEq] at hp
      obtain ⟨h1, h2, _⟩ := hp
      subst h1
      subst h2
      simp [unpackVideoGo]
  | succ n ih =>
      intro cnt cur ref m o c z zo hin hn hp
      rcases cur with _ | ⟨a, cur⟩
      · exact absurd hn (by simp)
      have ha : a < 256 := hin a (by simp)
      simp only [packVideoGo, List.headD_cons, List.tail_cons] at hp
      by_cases hoor : 127 < (a : Int) - ref.headD 0 ∨ (a : Int) - ref.headD 0 < -127
      · rw [if_pos hoor] at hp
        by_cases hc : cnt = 1000
        · rw [if_pos hc] at hp
          exact absurd hp (by simp)
        · rw [if_neg hc] at hp
          cases hrec : packVideoGo n (cnt + 1) cur ref.tail with
          | none => rw [hrec] at hp; exact absurd hp (by simp)
          | some t =>
              obtain ⟨m1, o1, c1⟩ := t
              rw [hrec] at hp
              simp only [Option.some.injEq, Prod.mk.injEq] at hp
              obtain ⟨h1, h2, _⟩ := hp
              subst h1
              subst h2
              simp only [unpackVideoGo, List.cons_append, List.headD_cons,
                List.tail_cons, if_pos rfl]
              rw [ih (cnt + 1) cur ref.tail m1 o1 c1 z zo
                (fun b hb => hin b (by simp [hb])) (by simpa using hn) hrec]
              simp [List.take_succ_cons]
      · rw [if_neg hoor] at hp
        cases hrec : packVideoGo n cnt cur ref.tail with
        | none => rw [hrec] at hp; exact absurd hp (by simp)
        | some t =>
            obtain ⟨m1, o1, c1⟩ := t
            rw [hrec] at hp
            simp only [Option.some.injEq, Prod.mk.injEq] at hp
            obtain ⟨h1, h2, _⟩ := hp
            subst h1
            subst h2
            simp only [unpackVideoGo, List.cons_append, List.headD_cons,
              List.tail_cons]
            rw [if_neg (bsub_ne_128 a (ref.headD 0) hoor)]
            rw [badd_bsub_left a (ref.headD 0) ha]
            rw [ih cnt cur ref.tail m1 o1 c1 z zo
              (fun b hb => hin b (by simp [hb])) (by simpa using hn) hrec]
            simp [List.take_succ_cons]

/-- Escape-byte accounting: on a successful inter pass, the number of
`0x80` bytes in the main stream equals the length of the overflow region —
every `0x80` is an escape, none is a stored in-range delta. -/
theorem packVideoGo_count128 :
    ∀ (n cnt : Nat) (cur ref m o : List Nat) (c : Nat),
      packVideoGo n cnt cur ref = some (m, o, c) →
      m.count 128 = o.length := by
  intro n
  induction n with
  | zero =>
      intro cnt cur ref m o c hp
      simp only [packVideoGo, Option.some.injEq, Prod.mk.injEq] at hp
      obtain ⟨h1, h2, _⟩ := hp
      subst h1
      subst h2
      rfl
  | succ n ih =>
      intro cnt cur ref m o c hp
      simp only [packVideoGo] at hp
      by_cases hoor : 127 < (cur.headD 0 : Int) - ref.headD 0 ∨
          (cur.headD 0 : Int) - ref.headD 0 < -127
      · rw [if_pos hoor] at hp
        by_cases hc : cnt = 1000
        · rw [if_pos hc] at hp
          exact absurd hp (by simp)
        · rw [if_neg hc] at hp
          cases hrec : packVideoGo n (cnt + 1) cur.tail ref.tail with
          | none => rw [hrec] at hp; exact absurd hp (by simp)
          | some t =>
              obtain ⟨m1, o1, c1⟩ := t
              rw [hrec] at hp
              simp only [Option.some.injEq, Prod.mk.injEq] at hp
              obtain ⟨h1, h2, _⟩ := hp
              subst h1
              subst h2
              simp [List.count_cons, ih _ _ _ _ _ _ hrec]
      · rw [if_neg hoor] at hp
        cases hrec : packVideoGo n cnt cur.tail ref.tail with
        | none => rw [hrec] at hp; exact absurd hp (by simp)
        | some t =>
            obtain ⟨m1, o1, c1⟩ := t
            rw [hrec] at hp
            simp only [Option.some.injEq, Prod.mk.injEq] at hp
            obtain ⟨h1, h2, _⟩ := hp
            subst h1
            subst h2
            have hne : bsub (cur.headD 0) (ref.headD 0) ≠ 128 :=
              bsub_ne_128 (cur.headD 0) (ref.headD 0) hoor
            rw [List.headD_eq_head?, List.headD_eq_head?] at hne
            simp [List.count_cons, ih _ _ _ _ _ _ hrec, hne]

/-! ## Codec facade (`ZPNG_MaximumBufferSize`, `ZPNG_CompressVideoToBuffer`,
`ZPNG_Compress`, `ZPNG_DecompressVideo`, `ZPNG_Decompress`).  The entropy
coder is the external zstd black box, treated as an exact inverse pair
(identity on the packed stream, never failing); only its documented
worst-case output bound is modelled concretely because the facade branches
on it. -/

/-- `ZSTD_compressBound`, the external coder's published worst-case bound:
`srcSize + (srcSize >> 8) + (srcSize < 128 KiB ? ((128 KiB - srcSize) >> 11) : 0)`. -/
def ZSTD_compressBound (n : Nat) : Nat :=
  n + n / 256 + (if n < 131072 then (131072 - n) / 2048 else 0)

/-- `ZPNG_HEADER_MAGIC` (intra), value `0xFBF8`. -/
def ZPNG_HEADER_MAGIC : Nat := 0xFBF8

/-- `ZPNG_VIDEO_HEADER_MAGIC` (inter/video), value `0xF8FB`. -/
def ZPNG_VIDEO_HEADER_MAGIC : Nat := 0xF8FB

/-- `ZPNG_MaximumBufferSize`: header overhead (8 bytes) plus the entropy
bound of `pixelBytes * pixelCount + 1000`. -/
def ZPNG_MaximumBufferSize (imageData : ZPNG_ImageData) : Nat :=
  8 + ZSTD_compressBound (pixelBytesOf imageData * pixelCountOf imageData + 1000)

/-- The 8-byte little-endian serialisation of `ZPNG_Header`
(`Magic`, `Width`, `Height` as `uint16_t`; `Channels`, `BytesPerChannel`
as `uint8_t`). -/
def headerBytes (magic w h ch bpc : Nat) : List Nat :=
  [magic % 256, magic / 256 % 256, w % 256, w / 256 % 256,
   h % 256, h / 256 % 256, ch % 256, bpc % 256]

/-- The intra-path filter dispatch of `ZPNG_CompressVideoToBuffer`
(`refData == nullptr`): Bayer when `BytesPerChannel > 8`, else `switch
(pixelBytes)` with cases 1..8 (3 and 4 are the RGB/RGBA template
specializations); with no matching case the `calloc`-zeroed packing buffer
is left untouched (empty filter output here; the facade zero-pads). -/
def PackAndFilterDispatch (d : ZPNG_ImageData) : List Nat :=
  if d.BytesPerChannel > 8 then
    PackAndFilterXGGY d.WidthPixels d.HeightPixels d.Buffer
  else if pixelBytesOf d = 3 then
    PackAndFilter3 d.WidthPixels d.HeightPixels d.Buffer
  else if pixelBytesOf d = 4 then
    PackAndFilter4 d.WidthPixels d.HeightPixels d.Buffer
  else if 1 ≤ pixelBytesOf d ∧ pixelBytesOf d ≤ 8 then
    packRowsN (pixelBytesOf d) d.WidthPixels d.HeightPixels d.Buffer
  else []

/-- The intra-path inverse dispatch of `ZPNG_DecompressVideo`, selected
from the parsed header fields. -/
def UnpackAndUnfilterDispatch (w h ch bpc : Nat) (packing : List Nat) : List Nat :=
  if bpc > 8 then UnpackAndUnfilterXGGY w h packing
  else if bpc * ch = 3 then UnpackAndUnfilter3 w h packing
  else if bpc * ch = 4 then UnpackAndUnfilter4 w h packing
  else if 1 ≤ bpc * ch ∧ bpc * ch ≤ 8 then unpackRowsN (bpc * ch) w h packing
  else []

/-- `PackAndFilterVideo<kChannels>` at the packing-buffer level: on success
the buffer holds the main region (`byteCount` bytes) followed by the
overflow region, and the overflow count is returned; once the 1001st
out-of-range delta is hit the pass is abandoned, `PackAndFilterXGGY` is
rerun over the current image from the start of the buffer, and `-1` is
returned.  On fallback the C code overwrites only the XGGY extent
(`w * h` bytes for even dimensions): the aborted delta pass's
already-written escape and delta bytes survive in
`packing[w*h .. byteCount)` whenever `byteCount > w * h`, and at odd
dimensions the overlapping C plane writes differ from the concatenated
plane model; the model zero-fills there instead, so every theorem about
the fallback buffer contents carries `byteCount = w * h` and evenness
hypotheses, the domain on which the model and the code agree byte for
byte. -/
def PackAndFilterVideo (refData imageData : ZPNG_ImageData) : List Nat × Int :=
  match packVideoGo (byteCountOf imageData) 0 imageData.Buffer refData.Buffer with
  | some (m, o, c) => (padTo (byteCountOf imageData) m ++ o, (c : Int))
  | none =>
      (padTo (byteCountOf imageData)
        (PackAndFilterXGGY imageData.WidthPixels imageData.HeightPixels
          imageData.Buffer), -1)

/-- `ZPNG_CompressVideoToBuffer`.  `bufferOutputBytes` is the caller's
`bufferOutput->Bytes` (0 means "allocate for me").  Returns `none` on the
`pixelBytes > 8` rejection or the too-small caller buffer, else the output
bytes: header then entropy payload (`packing[0 .. byteCount +
max(overflowCount, 0)]`); the header magic is the video magic exactly when
a reference was given and the overflow count is nonnegative. -/
def ZPNG_CompressVideoToBuffer (refData : Option ZPNG_ImageData)
    (imageData : ZPNG_ImageData) (bufferOutputBytes : Nat) : Option (List Nat) :=
  if 8 < pixelBytesOf imageData then none
  else if bufferOutputBytes ≠ 0 ∧
      bufferOutputBytes < 8 + ZSTD_compressBound (byteCountOf imageData) then none
  else
    match refData with
    | some refData =>
        if 1 ≤ pixelBytesOf imageData ∧ pixelBytesOf imageData ≤ 8 then
          some (headerBytes
            (if 0 ≤ (PackAndFilterVideo refData imageData).2 then
              ZPNG_VIDEO_HEADER_MAGIC else ZPNG_HEADER_MAGIC)
            imageData.WidthPixels imageData.HeightPixels imageData.Channels
            imageData.BytesPerChannel ++ (PackAndFilterVideo refData imageData).1)
        else
          some (headerBytes ZPNG_VIDEO_HEADER_MAGIC imageData.WidthPixels
            imageData.HeightPixels imageData.Channels imageData.BytesPerChannel ++
            padTo (byteCountOf imageData) [])
    | none =>
        some (headerBytes ZPNG_HEADER_MAGIC imageData.WidthPixels
          imageData.HeightPixels imageData.Channels imageData.BytesPerChannel ++
          padTo (byteCountOf imageData) (PackAndFilterDispatch imageData))

/-- `ZPNG_Compress`: the intra entry point (null reference, codec-allocated
output buffer). -/
def ZPNG_Compress (imageData : ZPNG_ImageData) : Option (List Nat) :=
  ZPNG_CompressVideoToBuffer none imageData 0

/-- `ZPNG_DecompressVideo`.  On any rejection (short buffer, wrong magic
for the chosen API) the initialised descriptor is returned unchanged: all
fields zero, empty buffer, and `IsIFrame = 1` (its initialisation value,
only cleared when the video magic is accepted). -/
def ZPNG_DecompressVideo (refData : Option ZPNG_ImageData) (buffer : List Nat) :
    ZPNG_ImageData :=
  if buffer.length < 8 then ⟨[], 0, 0, 0, 0, 0, 1⟩
  else
    let magic := buffer.getD 0 0 + 256 * buffer.getD 1 0
    if refData.isNone ∧ magic ≠ ZPNG_HEADER_MAGIC then ⟨[], 0, 0, 0, 0, 0, 1⟩
    else if refData.isSome ∧ magic ≠ ZPNG_HEADER_MAGIC ∧
        magic ≠ ZPNG_VIDEO_HEADER_MAGIC then ⟨[], 0, 0, 0, 0, 0, 1⟩
    else
      let isIFrame : Nat :=
        if magic = ZPNG_VIDEO_HEADER_MAGIC ∧ refData.isSome then 0 else 1
      let w := buffer.getD 2 0 + 256 * buffer.getD 3 0
      let h := buffer.getD 4 0 + 256 * buffer.getD 5 0
      let ch := buffer.getD 6 0
      let bpc := buffer.getD 7 0
      let pixelBytes := if bpc > 8 then ch else bpc * ch
      let byteCount := pixelBytes * (w * h)
      let packing := padTo (byteCount + 1000) (buffer.drop 8)
      let out :=
        match refData with
        | some r =>
            if isIFrame = 0 then
              if 1 ≤ pixelBytes ∧ pixelBytes ≤ 8 then
                unpackVideoGo byteCount packing r.Buffer (packing.drop byteCount)
              else List.replicate byteCount 0
            else UnpackAndUnfilterDispatch w h ch bpc packing
        | none => UnpackAndUnfilterDispatch w h ch bpc packing
      ⟨padTo byteCount out, bpc, ch, h, w * ch, w, isIFrame⟩

/-- `ZPNG_Decompress`: the intra entry point (null reference). -/
def ZPNG_Decompress (buffer : List Nat) : ZPNG_ImageData :=
  ZPNG_DecompressVideo none buffer

/-! ## Top-level inverse lemmas per filter (plane splits included) -/

theorem PackAndFilter3_length (w h : Nat) (input : List Nat) :
    (PackAndFilter3 w h input).length = 3 * (w * h) := by
  simp [PackAndFilter3, packRGBRows_length]
  ring

theorem PackAndFilter4_length (w h : Nat) (input : List Nat) :
    (PackAndFilter4 w h input).length = 4 * (w * h) := by
  simp [PackAndFilter4, packRGBARows_length]
  ring

/-- The RGB intra filter inverts, tolerating any junk appended to the
packed planes. -/
theorem unpack3_pack3 (w h : Nat) (input junk : List Nat)
    (hin : ∀ b ∈ input, b < 256) (hlen : input.length = 3 * (w * h)) :
    UnpackAndUnfilter3 w h (PackAndFilter3 w h input ++ junk) = input := by
  unfold PackAndFilter3 UnpackAndUnfilter3
  have hY : ∀ f : Nat × Nat × Nat → Nat,
      ((packRGBRows w h input).map f).length = w * h := by
    intro f
    simp [packRGBRows_length]
    ring
  simp only [List.append_assoc]
  have hd1 : ((packRGBRows w h input).map (fun t => t.1) ++
      ((packRGBRows w h input).map (fun t => t.2.1) ++
        ((packRGBRows w h input).map (fun t => t.2.2) ++ junk))).drop (w * h) =
      (packRGBRows w h input).map (fun t => t.2.1) ++
        ((packRGBRows w h input).map (fun t => t.2.2) ++ junk) :=
    List.drop_left' (hY _)
  have hd2 : ((packRGBRows w h input).map (fun t => t.1) ++
      ((packRGBRows w h input).map (fun t => t.2.1) ++
        ((packRGBRows w h input).map (fun t => t.2.2) ++ junk))).drop (w * h * 2) =
      (packRGBRows w h input).map (fun t => t.2.2) ++ junk := by
    rw [show w * h * 2 = w * h + w * h from by ring, ← List.drop_drop, hd1]
    exact List.drop_left' (hY _)
  rw [hd1, hd2]
  rw [unpackRGBRows_packRGBRows w h input _ _ _ hin (by
    rw [hlen]; ring_nf; omega)]
  rw [show h * (3 * w) = 3 * (w * h) from by ring, ← hlen, List.take_length]

/-- The RGBA intra filter inverts, tolerating any junk appended to the
packed planes. -/
theorem unpack4_pack4 (w h : Nat) (input junk : List Nat)
    (hin : ∀ b ∈ input, b < 256) (hlen : input.length = 4 * (w * h)) :
    UnpackAndUnfilter4 w h (PackAndFilter4 w h input ++ junk) = input := by
  unfold PackAndFilter4 UnpackAndUnfilter4
  have hY : ∀ f : Nat × Nat × Nat × Nat → Nat,
      ((packRGBARows w h input).map f).length = w * h := by
    intro f
    simp [packRGBARows_length]
    ring
  simp only [List.append_assoc]
  have hd1 : ((packRGBARows w h input).map (fun t => t.1) ++
      ((packRGBARows w h input).map (fun t => t.2.1) ++
        ((packRGBARows w h input).map (fun t => t.2.2.1) ++
          ((packRGBARows w h input).map (fun t => t.2.2.2) ++ junk)))).drop (w * h) =
      (packRGBARows w h input).map (fun t => t.2.1) ++
        ((packRGBARows w h input).map (fun t => t.2.2.1) ++
          ((packRGBARows w h input).map (fun t => t.2.2.2) ++ junk)) :=
    List.drop_left' (hY _)
  have hd2 : ((packRGBARows w h input).map (fun t => t.1) ++
      ((packRGBARows w h input).map (fun t => t.2.1) ++
        ((packRGBARows w h input).map (fun t => t.2.2.1) ++
          ((packRGBARows w h input).map (fun t => t.2.2.2) ++ junk)))).drop (w * h * 2) =
      (packRGBARows w h input).map (fun t => t.2.2.1) ++
        ((packRGBARows w h input).map (fun t => t.2.2.2) ++ junk) := by
    rw [show w * h * 2 = w * h + w * h from by ring, ← List.drop_drop, hd1]
    exact List.drop_left' (hY _)
  have hd3 : ((packRGBARows w h input).map (fun t => t.1) ++
      ((packRGBARows w h input).map (fun t => t.2.1) ++
        ((packRGBARows w h input).map (fun t => t.2.2.1) ++
          ((packRGBARows w h input).map (fun t => t.2.2.2) ++ junk)))).drop (w * h * 3) =
      (packRGBARows w h input).map (fun t => t.2.2.2) ++ junk := by
    rw [show w * h * 3 = w * h * 2 + w * h from by ring, ← List.drop_drop, hd2]
    exact List.drop_left' (hY _)
  rw [hd1, hd2, hd3]
  rw [unpackRGBARows_packRGBARows w h input _ _ _ _ hin (by
    rw [hlen]; ring_nf; omega)]
  rw [show h * (4 * w) = 4 * (w * h) from by ring, ← hlen, List.take_length]

theorem xggyPlaneR_length (n : Nat) :
    ∀ (hp : Nat) (l : List Nat),
      ((xggyRowPairs n hp l).map (fun pr => pr.1.map Prod.fst)).flatten.length
        = hp * n := by
  intro hp
  induction hp with
  | zero => intro l; simp [xggyRowPairs]
  | succ hp ih =>
      intro l
      simp [xggyRowPairs, xggyScan_length, ih]
      ring

theorem xggyPlaneB_length (n : Nat) :
    ∀ (hp : Nat) (l : List Nat),
      ((xggyRowPairs n hp l).map (fun pr => pr.2.map Prod.snd)).flatten.length
        = hp * n := by
  intro hp
  induction hp with
  | zero => intro l; simp [xggyRowPairs]
  | succ hp ih =>
      intro l
      simp [xggyRowPairs, xggyScan_length, ih]
      ring

theorem xggyPlaneG_length (n : Nat) :
    ∀ (hp : Nat) (l : List Nat),
      ((xggyRowPairs n hp l).map
        (fun pr => pr.1.map Prod.snd ++ pr.2.map Prod.fst)).flatten.length
        = hp * (2 * n) := by
  intro hp
  induction hp with
  | zero => intro l; simp [xggyRowPairs]
  | succ hp ih =>
      intro l
      simp [xggyRowPairs, xggyScan_length, ih]
      ring

theorem PackAndFilterXGGY_length (w h : Nat) (input : List Nat)
    (hw : w % 2 = 0) (hh : h % 2 = 0) :
    (PackAndFilterXGGY w h input).length = w * h := by
  obtain ⟨n, rfl⟩ : ∃ n, w = 2 * n := ⟨w / 2, by omega⟩
  obtain ⟨m, rfl⟩ : ∃ m, h = 2 * m := ⟨h / 2, by omega⟩
  have hn : (2 * n + 1) / 2 = n := by omega
  have hm : (2 * m + 1) / 2 = m := by omega
  unfold PackAndFilterXGGY
  rw [hn, hm, List.length_append, List.length_append, xggyPlaneR_length,
    xggyPlaneB_length, xggyPlaneG_length]
  ring

/-- The Bayer XGGY intra filter inverts on even dimensions, tolerating any
junk appended to the packed planes. -/
theorem unpackXGGY_packXGGY (w h : Nat) (input junk : List Nat)
    (hw : w % 2 = 0) (hh : h % 2 = 0)
    (hin : ∀ b ∈ input, b < 256) (hlen : input.length = w * h) :
    UnpackAndUnfilterXGGY w h (PackAndFilterXGGY w h input ++ junk) = input := by
  obtain ⟨n, rfl⟩ : ∃ n, w = 2 * n := ⟨w / 2, by omega⟩
  obtain ⟨m, rfl⟩ : ∃ m, h = 2 * m := ⟨h / 2, by omega⟩
  have hn : (2 * n + 1) / 2 = n := by omega
  have hm : (2 * m + 1) / 2 = m := by omega
  have hplane : 2 * n * (2 * m) / 4 = n * m := by
    rw [show 2 * n * (2 * m) = 4 * (n * m) from by ring]
    omega
  unfold PackAndFilterXGGY UnpackAndUnfilterXGGY
  rw [hn, hm, hplane]
  have hRnm : ((xggyRowPairs n m input).map
      (fun pr => pr.1.map Prod.fst)).flatten.length = n * m := by
    rw [xggyPlaneR_length]
    ring
  have hBnm : ((xggyRowPairs n m input).map
      (fun pr => pr.2.map Prod.snd)).flatten.length = n * m := by
    rw [xggyPlaneB_length]
    ring
  simp only [List.append_assoc]
  have hd1 : (((xggyRowPairs n m input).map (fun pr => pr.1.map Prod.fst)).flatten ++
      (((xggyRowPairs n m input).map (fun pr => pr.2.map Prod.snd)).flatten ++
        (((xggyRowPairs n m input).map
          (fun pr => pr.1.map Prod.snd ++ pr.2.map Prod.fst)).flatten ++ junk))).drop (n * m) =
      ((xggyRowPairs n m input).map (fun pr => pr.2.map Prod.snd)).flatten ++
        (((xggyRowPairs n m input).map
          (fun pr => pr.1.map Prod.snd ++ pr.2.map Prod.fst)).flatten ++ junk) :=
    List.drop_left' hRnm
  have hd2 : (((xggyRowPairs n m input).map (fun pr => pr.1.map Prod.fst)).flatten ++
      (((xggyRowPairs n m input).map (fun pr => pr.2.map Prod.snd)).flatten ++
        (((xggyRowPairs n m input).map
          (fun pr => pr.1.map Prod.snd ++ pr.2.map Prod.fst)).flatten ++ junk))).drop (n * m * 2) =
      ((xggyRowPairs n m input).map
        (fun pr => pr.1.map Prod.snd ++ pr.2.map Prod.fst)).flatten ++ junk := by
    rw [show n * m * 2 = n * m + n * m from by ring, ← List.drop_drop, hd1]
    exact List.drop_left' hBnm
  rw [hd1, hd2]
  rw [xggyUnRowPairs_xggyRowPairs n m input _ _ _ hin (by
    rw [hlen]; ring_nf; omega)]
  rw [show m * (4 * n) = 2 * n * (2 * m) from by ring, ← hlen, List.take_length]

/-! ## Dispatcher-level inverse and facade spine lemmas -/

/-- A descriptor on which the spec's intra round trip can hold: either a
non-Bayer format with `pixelBytes ∈ [1..8]`, or the Bayer sentinel with a
single channel and even dimensions. -/
def validIntra (d : ZPNG_ImageData) : Prop :=
  (d.BytesPerChannel ≤ 8 ∧ 1 ≤ pixelBytesOf d ∧ pixelBytesOf d ≤ 8) ∨
    (8 < d.BytesPerChannel ∧ d.Channels = 1 ∧
      d.WidthPixels % 2 = 0 ∧ d.HeightPixels % 2 = 0)

theorem dispatch_length (d : ZPNG_ImageData) (hpath : validIntra d) :
    (PackAndFilterDispatch d).length = byteCountOf d := by
  rcases hpath with ⟨hbpc, hpb1, hpb8⟩ | ⟨hbpc, hch, hw, hh⟩
  · have hpbe : pixelBytesOf d = d.BytesPerChannel * d.Channels := by
      simp [pixelBytesOf, Nat.not_lt.mpr hbpc]
    unfold PackAndFilterDispatch byteCountOf pixelCountOf
    rw [if_neg (by omega)]
    by_cases h3 : pixelBytesOf d = 3
    · rw [if_pos h3, PackAndFilter3_length, h3]
    · rw [if_neg h3]
      by_cases h4 : pixelBytesOf d = 4
      · rw [if_pos h4, PackAndFilter4_length, h4]
      · rw [if_neg h4, if_pos ⟨hpb1, hpb8⟩, packRowsN_length]
        ring
  · unfold PackAndFilterDispatch byteCountOf pixelCountOf
    rw [if_pos hbpc, PackAndFilterXGGY_length _ _ _ hw hh,
      pixelBytesOf, if_pos hbpc, hch, one_mul]

/-- The decode dispatcher inverts the encode dispatcher on any valid intra
descriptor, tolerating junk after the packed stream. -/
theorem dispatch_roundtrip (d : ZPNG_ImageData) (junk : List Nat)
    (hin : ∀ b ∈ d.Buffer, b < 256)
    (hbuf : d.Buffer.length = byteCountOf d) (hpath : validIntra d) :
    UnpackAndUnfilterDispatch d.WidthPixels d.HeightPixels d.Channels
      d.BytesPerChannel (PackAndFilterDispatch d ++ junk) = d.Buffer := by
  have hbc : byteCountOf d = pixelBytesOf d * (d.WidthPixels * d.HeightPixels) := rfl
  rcases hpath with ⟨hbpc, hpb1, hpb8⟩ | ⟨hbpc, hch, hw, hh⟩
  · have h8 : ¬(8 < d.BytesPerChannel) := by omega
    have hpbe : pixelBytesOf d = d.BytesPerChannel * d.Channels := by
      simp [pixelBytesOf, h8]
    unfold PackAndFilterDispatch UnpackAndUnfilterDispatch
    rw [← hpbe]
    simp only [if_neg h8]
    by_cases h3 : pixelBytesOf d = 3
    · simp only [if_pos h3]
      exact unpack3_pack3 _ _ _ _ hin (by rw [hbuf, hbc, h3])
    · simp only [if_neg h3]
      by_cases h4 : pixelBytesOf d = 4
      · simp only [if_pos h4]
        exact unpack4_pack4 _ _ _ _ hin (by rw [hbuf, hbc, h4])
      · simp only [if_neg h4, if_pos (show 1 ≤ pixelBytesOf d ∧ pixelBytesOf d ≤ 8
          from ⟨hpb1, hpb8⟩)]
        rw [unpackRowsN_packRowsN (pixelBytesOf d) d.WidthPixels d.HeightPixels
          d.Buffer junk hin (by rw [hbuf, hbc]; ring_nf; omega)]
        rw [show d.HeightPixels * (d.WidthPixels * pixelBytesOf d) =
          d.Buffer.length from by rw [hbuf, hbc]; ring, List.take_length]
  · unfold PackAndFilterDispatch UnpackAndUnfilterDispatch
    simp only [if_pos hbpc]
    exact unpackXGGY_packXGGY _ _ _ _ hw hh hin (by
      rw [hbuf, hbc]
      unfold pixelBytesOf
      rw [if_pos hbpc, hch, one_mul])

theorem headerBytes_length (magic w h ch bpc : Nat) :
    (headerBytes magic w h ch bpc).length = 8 := rfl

/-- Little-endian `uint16_t` round trip. -/
theorem u16_parse (x : Nat) (hx : x < 65536) :
    x % 256 + 256 * (x / 256 % 256) = x := by omega

theorem list8_getD0 (x0 x1 x2 x3 x4 x5 x6 x7 : Nat) (t : List Nat) :
    (([x0, x1, x2, x3, x4, x5, x6, x7] : List Nat) ++ t).getD 0 0 = x0 := by
  rw [List.cons_append, List.getD_cons_zero]

theorem list8_getD1 (x0 x1 x2 x3 x4 x5 x6 x7 : Nat) (t : List Nat) :
    (([x0, x1, x2, x3, x4, x5, x6, x7] : List Nat) ++ t).getD 1 0 = x1 := by
  rw [List.cons_append, List.getD_cons_succ, List.cons_append, List.getD_cons_zero]

theorem list8_getD2 (x0 x1 x2 x3 x4 x5 x6 x7 : Nat) (t : List Nat) :
    (([x0, x1, x2, x3, x4, x5, x6, x7] : List Nat) ++ t).getD 2 0 = x2 := by
  rw [List.cons_append, List.getD_cons_succ, List.cons_append, List.getD_cons_succ,
    List.cons_append, List.getD_cons_zero]

theorem list8_getD3 (x0 x1 x2 x3 x4 x5 x6 x7 : Nat) (t : List Nat) :
    (([x0, x1, x2, x3, x4, x5, x6, x7] : List Nat) ++ t).getD 3 0 = x3 := by
  rw [List.cons_append, List.getD_cons_succ, List.cons_append, List.getD_cons_succ,
    List.cons_append, List.getD_cons_succ, List.cons_append, List.getD_cons_zero]

theorem list8_getD4 (x0 x1 x2 x3 x4 x5 x6 x7 : Nat) (t : List Nat) :
    (([x0, x1, x2, x3, x4, x5, x6, x7] : List Nat) ++ t).getD 4 0 = x4 := by
  rw [List.cons_append, List.getD_cons_succ, List.cons_append, List.getD_cons_succ,
    List.cons_append, List.getD_cons_succ, List.cons_append, List.getD_cons_succ,
    List.cons_append, List.getD_cons_zero]

theorem list8_getD5 (x0 x1 x2 x3 x4 x5 x6 x7 : Nat) (t : List Nat) :
    (([x0, x1, x2, x3, x4, x5, x6, x7] : List Nat) ++ t).getD 5 0 = x5 := by
  rw [List.cons_append, List.getD_cons_succ, List.cons_append, List.getD_cons_succ,
    List.cons_append, List.getD_cons_succ, List.cons_append, List.getD_cons_succ,
    List.cons_append, List.getD_cons_succ, List.cons_append, List.getD_cons_zero]

theorem list8_getD6 (x0 x1 x2 x3 x4 x5 x6 x7 : Nat) (t : List Nat) :
    (([x0, x1, x2, x3, x4, x5, x6, x7] : List Nat) ++ t).getD 6 0 = x6 := by
  rw [List.cons_append, List.getD_cons_succ, List.cons_append, List.getD_cons_succ,
    List.cons_append, List.getD_cons_succ, List.cons_append, List.getD_cons_succ,
    List.cons_append, List.getD_cons_succ, List.cons_append, List.getD_cons_succ,
    List.cons_append, List.getD_cons_zero]

theorem list8_getD7 (x0 x1 x2 x3 x4 x5 x6 x7 : Nat) (t : List Nat) :
    (([x0, x1, x2, x3, x4, x5, x6, x7] : List Nat) ++ t).getD 7 0 = x7 := by
  rw [List.cons_append, List.getD_cons_succ, List.cons_append, List.getD_cons_succ,
    List.cons_append, List.getD_cons_succ, List.cons_append, List.getD_cons_succ,
    List.cons_append, List.getD_cons_succ, List.cons_append, List.getD_cons_succ,
    List.cons_append, List.getD_cons_succ, List.cons_append, List.getD_cons_zero]

theorem list8_drop8 (x0 x1 x2 x3 x4 x5 x6 x7 : Nat) (t : List Nat) :
    (([x0, x1, x2, x3, x4, x5, x6, x7] : List Nat) ++ t).drop 8 = t := by
  rw [List.cons_append, List.drop_succ_cons, List.cons_append, List.drop_succ_cons,
    List.cons_append, List.drop_succ_cons, List.cons_append, List.drop_succ_cons,
    List.cons_append, List.drop_succ_cons, List.cons_append, List.drop_succ_cons,
    List.cons_append, List.drop_succ_cons, List.cons_append, List.drop_succ_cons,
    List.nil_append, List.drop_zero]

theorem list8_length (x0 x1 x2 x3 x4 x5 x6 x7 : Nat) (t : List Nat) :
    (([x0, x1, x2, x3, x4, x5, x6, x7] : List Nat) ++ t).length = 8 + t.length := by
  rw [List.length_append]
  rfl

/-- The intra magic value. -/
theorem intra_magic_val : ZPNG_HEADER_MAGIC % 256 + 256 * (ZPNG_HEADER_MAGIC / 256 % 256)
    = ZPNG_HEADER_MAGIC := by
  norm_num [ZPNG_HEADER_MAGIC]

/-- The video magic value. -/
theorem video_magic_val : ZPNG_VIDEO_HEADER_MAGIC % 256 +
    256 * (ZPNG_VIDEO_HEADER_MAGIC / 256 % 256) = ZPNG_VIDEO_HEADER_MAGIC := by
  norm_num [ZPNG_VIDEO_HEADER_MAGIC]

/-- Decompression of a well-formed intra-magic buffer, for any reference
argument: parse the header, zstd-decompress (identity) into the
`byteCount + 1000` packing buffer, run the inverse intra dispatch, and
return with `IsIFrame` still 1. -/
theorem ZPNG_DecompressVideo_intra (refData : Option ZPNG_ImageData)
    (w h ch bpc : Nat) (t : List Nat)
    (hw : w < 65536) (hh : h < 65536) (hch : ch < 256) (hbpc : bpc < 256) :
    ZPNG_DecompressVideo refData (headerBytes ZPNG_HEADER_MAGIC w h ch bpc ++ t) =
      ⟨padTo ((if bpc > 8 then ch else bpc * ch) * (w * h))
        (UnpackAndUnfilterDispatch w h ch bpc
          (padTo ((if bpc > 8 then ch else bpc * ch) * (w * h) + 1000) t)),
       bpc, ch, h, w * ch, w, 1⟩ := by
  have emagic : (headerBytes ZPNG_HEADER_MAGIC w h ch bpc ++ t).getD 0 0 +
      256 * (headerBytes ZPNG_HEADER_MAGIC w h ch bpc ++ t).getD 1 0
      = ZPNG_HEADER_MAGIC := by
    unfold headerBytes
    rw [list8_getD0, list8_getD1, intra_magic_val]
  have ew : (headerBytes ZPNG_HEADER_MAGIC w h ch bpc ++ t).getD 2 0 +
      256 * (headerBytes ZPNG_HEADER_MAGIC w h ch bpc ++ t).getD 3 0 = w := by
    unfold headerBytes
    rw [list8_getD2, list8_getD3]
    exact u16_parse w hw
  have eh : (headerBytes ZPNG_HEADER_MAGIC w h ch bpc ++ t).getD 4 0 +
      256 * (headerBytes ZPNG_HEADER_MAGIC w h ch bpc ++ t).getD 5 0 = h := by
    unfold headerBytes
    rw [list8_getD4, list8_getD5]
    exact u16_parse h hh
  have ech : (headerBytes ZPNG_HEADER_MAGIC w h ch bpc ++ t).getD 6 0 = ch := by
    unfold headerBytes
    rw [list8_getD6]
    exact Nat.mod_eq_of_lt hch
  have ebpc : (headerBytes ZPNG_HEADER_MAGIC w h ch bpc ++ t).getD 7 0 = bpc := by
    unfold headerBytes
    rw [list8_getD7]
    exact Nat.mod_eq_of_lt hbpc
  have ed : (headerBytes ZPNG_HEADER_MAGIC w h ch bpc ++ t).drop 8 = t := by
    unfold headerBytes
    rw [list8_drop8]
  have el : (headerBytes ZPNG_HEADER_MAGIC w h ch bpc ++ t).length = 8 + t.length := by
    unfold headerBytes
    rw [list8_length]
  simp only [ZPNG_DecompressVideo, el, emagic, ew, eh, ech, ebpc, ed]
  rw [if_neg (show ¬(8 + t.length < 8) from by omega)]
  have hmagic_ne : ¬(refData.isNone ∧ ZPNG_HEADER_MAGIC ≠ ZPNG_HEADER_MAGIC) := by
    simp
  have hmagic_ne2 : ¬(refData.isSome ∧ ZPNG_HEADER_MAGIC ≠ ZPNG_HEADER_MAGIC ∧
      ZPNG_HEADER_MAGIC ≠ ZPNG_VIDEO_HEADER_MAGIC) := by
    simp
  rw [if_neg hmagic_ne, if_neg hmagic_ne2]
  have hii : (if ZPNG_HEADER_MAGIC = ZPNG_VIDEO_HEADER_MAGIC ∧ refData.isSome
      then (0 : Nat) else 1) = 1 := by
    rw [if_neg (by simp [ZPNG_HEADER_MAGIC, ZPNG_VIDEO_HEADER_MAGIC])]
  rw [hii]
  cases refData with
  | none => rfl
  | some r => simp

/-- Decompression of a well-formed video-magic buffer with a reference:
`IsIFrame` is cleared and the inter inverse filter runs against the
reference buffer, reading the overflow region at offset `byteCount`. -/
theorem ZPNG_DecompressVideo_video (r : ZPNG_ImageData)
    (w h ch bpc : Nat) (t : List Nat)
    (hw : w < 65536) (hh : h < 65536) (hch : ch < 256) (hbpc : bpc < 256) :
    ZPNG_DecompressVideo (some r)
        (headerBytes ZPNG_VIDEO_HEADER_MAGIC w h ch bpc ++ t) =
      ⟨padTo ((if bpc > 8 then ch else bpc * ch) * (w * h))
        (if 1 ≤ (if bpc > 8 then ch else bpc * ch) ∧
            (if bpc > 8 then ch else bpc * ch) ≤ 8 then
          unpackVideoGo ((if bpc > 8 then ch else bpc * ch) * (w * h))
            (padTo ((if bpc > 8 then ch else bpc * ch) * (w * h) + 1000) t)
            r.Buffer
            ((padTo ((if bpc > 8 then ch else bpc * ch) * (w * h) + 1000) t).drop
              ((if bpc > 8 then ch else bpc * ch) * (w * h)))
        else List.replicate ((if bpc > 8 then ch else bpc * ch) * (w * h)) 0),
       bpc, ch, h, w * ch, w, 0⟩ := by
  have emagic : (headerBytes ZPNG_VIDEO_HEADER_MAGIC w h ch bpc ++ t).getD 0 0 +
      256 * (headerBytes ZPNG_VIDEO_HEADER_MAGIC w h ch bpc ++ t).getD 1 0
      = ZPNG_VIDEO_HEADER_MAGIC := by
    unfold headerBytes
    rw [list8_getD0, list8_getD1, video_magic_val]
  have ew : (headerBytes ZPNG_VIDEO_HEADER_MAGIC w h ch bpc ++ t).getD 2 0 +
      256 * (headerBytes ZPNG_VIDEO_HEADER_MAGIC w h ch bpc ++ t).getD 3 0 = w := by
    unfold headerBytes
    rw [list8_getD2, list8_getD3]
    exact u16_parse w hw
  have eh : (headerBytes ZPNG_VIDEO_HEADER_MAGIC w h ch bpc ++ t).getD 4 0 +
      256 * (headerBytes ZPNG_VIDEO_HEADER_MAGIC w h ch bpc ++ t).getD 5 0 = h := by
    unfold headerBytes
    rw [list8_getD4, list8_getD5]
    exact u16_parse h hh
  have ech : (headerBytes ZPNG_VIDEO_HEADER_MAGIC w h ch bpc ++ t).getD 6 0 = ch := by
    unfold headerBytes
    rw [list8_getD6]
    exact Nat.mod_eq_of_lt hch
  have ebpc : (headerBytes ZPNG_VIDEO_HEADER_MAGIC w h ch bpc ++ t).getD 7 0 = bpc := by
    unfold headerBytes
    rw [list8_getD7]
    exact Nat.mod_eq_of_lt hbpc
  have ed : (headerBytes ZPNG_VIDEO_HEADER_MAGIC w h ch bpc ++ t).drop 8 = t := by
    unfold headerBytes
    rw [list8_drop8]
  have el : (headerBytes ZPNG_VIDEO_HEADER_MAGIC w h ch bpc ++ t).length
      = 8 + t.length := by
    unfold headerBytes
    rw [list8_length]
  simp only [ZPNG_DecompressVideo, el, emagic, ew, eh, ech, ebpc, ed]
  rw [if_neg (show ¬(8 + t.length < 8) from by omega)]
  have hmagic_ne : ¬((some r).isNone ∧ ZPNG_VIDEO_HEADER_MAGIC ≠ ZPNG_HEADER_MAGIC) := by
    simp
  have hmagic_ne2 : ¬((some r).isSome ∧ ZPNG_VIDEO_HEADER_MAGIC ≠ ZPNG_HEADER_MAGIC ∧
      ZPNG_VIDEO_HEADER_MAGIC ≠ ZPNG_VIDEO_HEADER_MAGIC) := by
    simp
  rw [if_neg hmagic_ne, if_neg hmagic_ne2]
  simp

/-- Intra compression (`refData == nullptr`): the `pixelBytes ≤ 8` check
passes, the caller-size check is skipped (`Bytes == 0`), the filter
dispatch fills the packing buffer and the identity entropy stage copies
`packing[0 .. byteCount]` after the intra-magic header. -/
theorem ZPNG_Compress_eq (d : ZPNG_ImageData) (hpb : pixelBytesOf d ≤ 8) :
    ZPNG_Compress d = some (headerBytes ZPNG_HEADER_MAGIC d.WidthPixels
      d.HeightPixels d.Channels d.BytesPerChannel ++
      padTo (byteCountOf d) (PackAndFilterDispatch d)) := by
  unfold ZPNG_Compress ZPNG_CompressVideoToBuffer
  rw [if_neg (show ¬(8 < pixelBytesOf d) from by omega),
    if_neg (show ¬((0 : Nat) ≠ 0 ∧
      (0 : Nat) < 8 + ZSTD_compressBound (byteCountOf d)) from by simp)]

/-- Video compression with a reference and `pixelBytes ∈ [1..8]` and a
codec-allocated output buffer: header magic selected by the sign of the
inter filter result, payload `packing[0 .. byteCount + max(count, 0)]`. -/
theorem ZPNG_CompressVideoToBuffer_eq (r d : ZPNG_ImageData)
    (hpb1 : 1 ≤ pixelBytesOf d) (hpb8 : pixelBytesOf d ≤ 8) :
    ZPNG_CompressVideoToBuffer (some r) d 0 =
      some (headerBytes
        (if 0 ≤ (PackAndFilterVideo r d).2 then ZPNG_VIDEO_HEADER_MAGIC
          else ZPNG_HEADER_MAGIC)
        d.WidthPixels d.HeightPixels d.Channels d.BytesPerChannel ++
        (PackAndFilterVideo r d).1) := by
  unfold ZPNG_CompressVideoToBuffer
  rw [if_neg (show ¬(8 < pixelBytesOf d) from by omega),
    if_neg (show ¬((0 : Nat) ≠ 0 ∧
      (0 : Nat) < 8 + ZSTD_compressBound (byteCountOf d)) from by simp)]
  simp only [if_pos (show 1 ≤ pixelBytesOf d ∧ pixelBytesOf d ≤ 8 from ⟨hpb1, hpb8⟩)]

/-! ## Helpers for concrete saturating instances (the 1000-escape threshold
forces inputs of more than 1000 bytes, evaluated by induction rather than
by kernel reduction) -/

theorem headD_eq_getD (l : List Nat) (d : Nat) : l.headD d = l.getD 0 d := by
  cases l <;> rfl

theorem tail_getD (l : List Nat) (i d : Nat) : l.tail.getD i d = l.getD (i + 1) d := by
  cases l <;> rfl

theorem getD_replicate (a d : Nat) :
    ∀ (k i : Nat), i < k → (List.replicate k a).getD i d = a := by
  intro k
  induction k with
  | zero => intro i hi; omega
  | succ k ih =>
      intro i hi
      cases i with
      | zero => rfl
      | succ i =>
          rw [List.replicate_succ, List.getD_cons_succ]
          exact ih i (by omega)

/-- If every delta along the walk is out of range and more than
`1000 - cnt` steps remain, the inter pass aborts. -/
theorem packVideoGo_sat_of_oor :
    ∀ (k cnt : Nat) (cur ref : List Nat), cnt ≤ 1000 → 1000 < cnt + k →
      (∀ i, i < k → (127 < (cur.getD i 0 : Int) - ref.getD i 0 ∨
        (cur.getD i 0 : Int) - ref.getD i 0 < -127)) →
      packVideoGo k cnt cur ref = none := by
  intro k
  induction k with
  | zero => intro cnt cur ref hc hgt _; omega
  | succ k ih =>
      intro cnt cur ref hc hgt hoor
      simp only [packVideoGo]
      have h0 := hoor 0 (by omega)
      rw [headD_eq_getD cur 0, headD_eq_getD ref 0]
      rw [if_pos h0]
      by_cases hcnt : cnt = 1000
      · rw [if_pos hcnt]
      · rw [if_neg hcnt]
        rw [ih (cnt + 1) cur.tail ref.tail (by omega) (by omega)
          (fun i hi => by
            rw [tail_getD cur i 0, tail_getD ref i 0]
            exact hoor (i + 1) (by omega))]

/-- If every delta along the walk is out of range, the walk counts one
overflow per step. -/
theorem oorCount_of_oor :
    ∀ (k : Nat) (cur ref : List Nat),
      (∀ i, i < k → (127 < (cur.getD i 0 : Int) - ref.getD i 0 ∨
        (cur.getD i 0 : Int) - ref.getD i 0 < -127)) →
      oorCount k cur ref = k := by
  intro k
  induction k with
  | zero => intro cur ref _; rfl
  | succ k ih =>
      intro cur ref hoor
      simp only [oorCount]
      rw [headD_eq_getD cur 0, headD_eq_getD ref 0, if_pos (hoor 0 (by omega))]
      rw [ih cur.tail ref.tail (fun i hi => by
        rw [tail_getD cur i 0, tail_getD ref i 0]
        exact hoor (i + 1) (by omega))]
      omega

theorem packVideoGo_overflow_length :
    ∀ (n cnt : Nat) (cur ref m o : List Nat) (c : Nat),
      packVideoGo n cnt cur ref = some (m, o, c) → cnt + o.length = c := by
  intro n
  induction n with
  | zero =>
      intro cnt cur ref m o c hp
      simp only [packVideoGo, Option.some.injEq, Prod.mk.injEq] at hp
      obtain ⟨_, h2, h3⟩ := hp
      subst h2
      subst h3
      rfl
  | succ n ih =>
      intro cnt cur ref m o c hp
      simp only [packVideoGo] at hp
      by_cases hoor : 127 < (cur.headD 0 : Int) - ref.headD 0 ∨
          (cur.headD 0 : Int) - ref.headD 0 < -127
      · rw [if_pos hoor] at hp
        by_cases hc : cnt = 1000
        · rw [if_pos hc] at hp
          exact absurd hp (by simp)
        · rw [if_neg hc] at hp
          cases hrec : packVideoGo n (cnt + 1) cur.tail ref.tail with
          | none => rw [hrec] at hp; exact absurd hp (by simp)
          | some t =>
              obtain ⟨m1, o1, c1⟩ := t
              rw [hrec] at hp
              simp only [Option.some.injEq, Prod.mk.injEq] at hp
              obtain ⟨_, h2, h3⟩ := hp
              subst h2
              have := ih _ _ _ _ _ _ hrec
              simp only [List.length_cons]
              omega
      · rw [if_neg hoor] at hp
        cases hrec : packVideoGo n cnt cur.tail ref.tail with
        | none => rw [hrec] at hp; exact absurd hp (by simp)
        | some t =>
            obtain ⟨m1, o1, c1⟩ := t
            rw [hrec] at hp
            simp only [Option.some.injEq, Prod.mk.injEq] at hp
            obtain ⟨_, h2, h3⟩ := hp
            subst h2
            have := ih _ _ _ _ _ _ hrec
            omega

theorem padTo_zero (l : List Nat) : padTo 0 l = [] := by
  simp [padTo]

theorem padTo_eq_append_of_le (n : Nat) (l : List Nat) (h : l.length ≤ n) :
    padTo n l = l ++ List.replicate (n - l.length) 0 := by
  simp [padTo, List.take_of_length_le h]

/-- The behaviour of `PackAndFilterVideo`: the overflow count is returned
when at most 1000 deltas are out of range; a 1001st out-of-range delta
gives the `-1` fallback, whose buffer is the XGGY re-encode of the
current image where the compressed slice is exactly the XGGY extent
(`byteCount = w * h`, even dimensions — the domain where the model and
the C buffer agree).  Stated as a helper; the claim-level theorem
restates it. -/
theorem PackAndFilterVideo_spec (refD curD : ZPNG_ImageData) :
    (oorCount (byteCountOf curD) curD.Buffer refD.Buffer ≤ 1000 →
      (PackAndFilterVideo refD curD).2 =
        oorCount (byteCountOf curD) curD.Buffer refD.Buffer) ∧
    (1000 < oorCount (byteCountOf curD) curD.Buffer refD.Buffer →
      (PackAndFilterVideo refD curD).2 = -1) ∧
    (1000 < oorCount (byteCountOf curD) curD.Buffer refD.Buffer →
      byteCountOf curD = curD.WidthPixels * curD.HeightPixels →
      curD.WidthPixels % 2 = 0 → curD.HeightPixels % 2 = 0 →
      (PackAndFilterVideo refD curD).1 =
        PackAndFilterXGGY curD.WidthPixels curD.HeightPixels curD.Buffer) := by
  unfold PackAndFilterVideo
  cases hp : packVideoGo (byteCountOf curD) 0 curD.Buffer refD.Buffer with
  | none =>
      refine ⟨?_, ?_, ?_⟩
      · intro hle
        have := (packVideoGo_isSome_iff (byteCountOf curD) 0 curD.Buffer
          refD.Buffer (by omega)).mpr (by omega)
        rw [hp] at this
        exact absurd this (by simp)
      · intro _
        rfl
      · intro _ hbc hwe hhe
        dsimp only
        have hXlen : (PackAndFilterXGGY curD.WidthPixels curD.HeightPixels
            curD.Buffer).length = byteCountOf curD := by
          rw [PackAndFilterXGGY_length _ _ _ hwe hhe, hbc]
        exact padTo_eq_self _ _ hXlen
  | some t =>
      obtain ⟨m, o, c⟩ := t
      refine ⟨?_, ?_, ?_⟩
      · intro _
        have := packVideoGo_count _ _ _ _ _ _ _ hp
        simp only []
        omega
      · intro hgt
        have := (packVideoGo_isSome_iff (byteCountOf curD) 0 curD.Buffer
          refD.Buffer (by omega)).mp (by rw [hp]; rfl)
        omega
      · intro hgt _ _ _
        have := (packVideoGo_isSome_iff (byteCountOf curD) 0 curD.Buffer
          refD.Buffer (by omega)).mp (by rw [hp]; rfl)
        omega

/-! ## Concrete instances for witnesses and counterexamples -/

/-- 1x1, one channel, one byte per channel, single byte `0x42`. -/
def zpngImg42 : ZPNG_ImageData := ⟨[0x42], 1, 1, 1, 1, 1, 1⟩

/-- 5x5 descriptor with zero channels: `pixelBytes = 0`. -/
def zpngZeroImg : ZPNG_ImageData := ⟨[], 1, 0, 5, 0, 5, 1⟩

/-- 2x1 grayscale image. -/
def zpngC1Img : ZPNG_ImageData := ⟨[5, 7], 1, 1, 1, 2, 2, 1⟩

/-- 2x2 Bayer-sentinel descriptor with two channels: its trailing bytes do
not survive the XGGY round trip. -/
def zpngC1Bayer : ZPNG_ImageData := ⟨[1, 2, 3, 4, 5, 6, 7, 8], 9, 2, 2, 4, 2, 1⟩

/-- 999x1 current frame whose every delta overflows (999 escapes). -/
def zpngCur999 : ZPNG_ImageData := ⟨List.replicate 999 200, 1, 1, 1, 999, 999, 1⟩

/-- All-zero 999x1 reference frame. -/
def zpngRef999 : ZPNG_ImageData := ⟨List.replicate 999 0, 1, 1, 1, 999, 999, 1⟩

/-- 1000x1 current frame whose every delta overflows (1000 escapes). -/
def zpngCur1000 : ZPNG_ImageData := ⟨List.replicate 1000 200, 1, 1, 1, 1000, 1000, 1⟩

/-- All-zero 1000x1 reference frame. -/
def zpngRef1000 : ZPNG_ImageData := ⟨List.replicate 1000 0, 1, 1, 1, 1000, 1000, 1⟩

/-- All-zero 34x34 single-byte reference frame. -/
def zpngRefSat : ZPNG_ImageData := ⟨List.replicate 1156 0, 1, 1, 34, 34, 34, 1⟩

/-- 34x34 single-byte current frame, all deltas overflowing (1156 > 1000
escapes), with distinct second and third pixels. -/
def zpngCurSat : ZPNG_ImageData :=
  ⟨200 :: 201 :: 202 :: List.replicate 1153 200, 1, 1, 34, 34, 34, 1⟩

/-- A second saturating 34x34 current frame (for the intra-fallback claim). -/
def zpngCurSat2 : ZPNG_ImageData :=
  ⟨200 :: 205 :: 210 :: List.replicate 1153 200, 1, 1, 34, 34, 34, 1⟩

/-- Saturating 34x34 Bayer-sentinel current frame. -/
def zpngCurSatB : ZPNG_ImageData := ⟨List.replicate 1156 200, 9, 1, 34, 34, 34, 1⟩

/-- All-zero 34x34 Bayer-sentinel reference frame. -/
def zpngRefSatB : ZPNG_ImageData := ⟨List.replicate 1156 0, 9, 1, 34, 34, 34, 1⟩

/-- 3x1 current frame with one overflowing delta against `zpngRefV`. -/
def zpngCurV : ZPNG_ImageData := ⟨[200, 5, 7], 1, 1, 1, 3, 3, 1⟩

/-- 3x1 reference frame for `zpngCurV`. -/
def zpngRefV : ZPNG_ImageData := ⟨[0, 5, 200], 1, 1, 1, 3, 3, 1⟩

/-! ## Claim theorems -/

/-- C9 (confirmed): the RGB intra filter (`PackAndFilter<3>`) on the 2x1
image with pixels (10,20,30) and (15,24,29) produces, with wraparound
arithmetic and the row delta before the colour transform, the planar
buffer Y `[30, 0xFF]`, U `[0xF6, 5]`, V `[10, 0xFF]` as three contiguous
planes. -/
theorem zpng_c9_two_pixel_rgb :
    PackAndFilter3 2 1 [10, 20, 30, 15, 24, 29] =
      [30, 0xFF, 0xF6, 5, 10, 0xFF] := by decide

/-- C8 counterexample: the claimed leading bytes `FB F8 01 00 01 00 01 01`
are wrong — the magic `0xFBF8` is serialised little-endian, so the buffer
starts `F8 FB`. -/
theorem zpng_c8_counterexample :
    (ZPNG_Compress zpngImg42).map (fun l => l.take 8) ≠
      some [0xFB, 0xF8, 1, 0, 1, 0, 1, 1] := by decide

/-- C8 (corrected): compressing the 1x1 one-channel image `[0x42]` filters
to the byte `0x42`, yields the header `F8 FB 01 00 01 00 01 01` (magic
little-endian) followed by the entropy payload, and decodes back to
`[0x42]`. -/
theorem zpng_c8_single_gray :
    PackAndFilterDispatch zpngImg42 = [0x42] ∧
    ZPNG_Compress zpngImg42 = some ([0xF8, 0xFB, 1, 0, 1, 0, 1, 1] ++ [0x42]) ∧
    (ZPNG_Decompress ((ZPNG_Compress zpngImg42).getD [])).Buffer = [0x42] := by
  decide

/-- C6 (confirmed): `ZPNG_Decompress` (no reference) rejects any buffer
shorter than the 8-byte header or whose magic is not the intra magic,
returning the zero-initialised descriptor: empty buffer, zero dimensions,
channels and depth (and `IsIFrame` still at its initialisation value 1). -/
theorem zpng_c6_magic_discipline (buffer : List Nat)
    (hbad : buffer.length < 8 ∨
      buffer.getD 0 0 + 256 * buffer.getD 1 0 ≠ ZPNG_HEADER_MAGIC) :
    ZPNG_Decompress buffer = ⟨[], 0, 0, 0, 0, 0, 1⟩ := by
  simp only [ZPNG_Decompress, ZPNG_DecompressVideo]
  rcases hbad with hl | hm
  · rw [if_pos hl]
  · by_cases hl : buffer.length < 8
    · rw [if_pos hl]
    · rw [if_neg hl, if_pos (show (none : Option ZPNG_ImageData).isNone = true ∧
        buffer.getD 0 0 + 256 * buffer.getD 1 0 ≠ ZPNG_HEADER_MAGIC from ⟨rfl, hm⟩)]

/-- C6 witness at a concrete rejected buffer (magic `0x0201`). -/
theorem zpng_c6_witness :
    ZPNG_Decompress [1, 2, 3, 4, 5, 6, 7, 8] = ⟨[], 0, 0, 0, 0, 0, 1⟩ :=
  zpng_c6_magic_discipline [1, 2, 3, 4, 5, 6, 7, 8] (Or.inr (by decide))

/-- C7 (corrected): with `pixelBytes ≤ 8` and a nonzero caller-provided
output size, `ZPNG_CompressVideoToBuffer` fails exactly when that size is
below `8 + ZSTD_compressBound(byteCount)` — the bound of the packed byte
count *without* the `+1000` slack used by `ZPNG_MaximumBufferSize`. -/
theorem zpng_c7_output_too_small (refData : Option ZPNG_ImageData)
    (d : ZPNG_ImageData) (bufSize : Nat)
    (hpb : pixelBytesOf d ≤ 8) (hb0 : bufSize ≠ 0) :
    (ZPNG_CompressVideoToBuffer refData d bufSize = none ↔
      bufSize < 8 + ZSTD_compressBound (byteCountOf d)) := by
  unfold ZPNG_CompressVideoToBuffer
  rw [if_neg (show ¬(8 < pixelBytesOf d) from by omega)]
  by_cases hlt : bufSize < 8 + ZSTD_compressBound (byteCountOf d)
  · rw [if_pos ⟨hb0, hlt⟩]
    simp [hlt]
  · rw [if_neg (fun hc => hlt hc.2)]
    cases refData with
    | none =>
        dsimp only
        simp [hlt]
    | some r =>
        dsimp only
        by_cases hc : 1 ≤ pixelBytesOf d ∧ pixelBytesOf d ≤ 8
        · rw [if_pos hc]
          simp [hlt]
        · rw [if_neg hc]
          simp [hlt]

/-- C7 witness: the 1x1 image with a 72-byte caller buffer compresses
(72 = 8 + compressBound(1)). -/
theorem zpng_c7_witness : ZPNG_CompressVideoToBuffer none zpngImg42 72 ≠ none := by
  intro hn
  have h := (zpng_c7_output_too_small none zpngImg42 72 (by decide) (by decide)).mp hn
  exact absurd h (by decide)

/-- C7 counterexample: a 72-byte caller buffer is strictly smaller than
`ZPNG_MaximumBufferSize` (1075) yet compression succeeds, refuting the
claim that the check is against `max_buffer_size`. -/
theorem zpng_c7_counterexample :
    72 < ZPNG_MaximumBufferSize zpngImg42 ∧
    ZPNG_CompressVideoToBuffer none zpngImg42 72 ≠ none := by decide

/-- C10 (confirmed, implicit behaviour): a descriptor with
`pixelBytes = 0` is not rejected — the only validity check is
`pixelBytes > 8` — and the encoder returns the 8-byte header followed by
the entropy encoding of zero filtered bytes (a non-empty buffer). -/
theorem zpng_c10_zero_pixel_bytes (d : ZPNG_ImageData)
    (h0 : pixelBytesOf d = 0) :
    ZPNG_Compress d = some (headerBytes ZPNG_HEADER_MAGIC d.WidthPixels
      d.HeightPixels d.Channels d.BytesPerChannel) ∧
    (ZPNG_Compress d).getD [] ≠ [] := by
  have h8 : pixelBytesOf d ≤ 8 := by omega
  rw [ZPNG_Compress_eq d h8]
  have hbc : byteCountOf d = 0 := by
    unfold byteCountOf
    rw [h0, Nat.zero_mul]
  rw [hbc, padTo_zero, List.append_nil]
  exact ⟨rfl, by simp [headerBytes]⟩

/-- C10 witness: the 5x5 zero-channel descriptor encodes to its bare
header. -/
theorem zpng_c10_witness :
    ZPNG_Compress zpngZeroImg = some (headerBytes ZPNG_HEADER_MAGIC
      zpngZeroImg.WidthPixels zpngZeroImg.HeightPixels zpngZeroImg.Channels
      zpngZeroImg.BytesPerChannel) :=
  (zpng_c10_zero_pixel_bytes zpngZeroImg (by decide)).1

/-- C5 (confirmed): on a successful inter pass every `0x80` byte of the
main stream is an escape — their number equals the overflow region's
length — and an in-range delta `diff ∈ [-127, 127]` is never stored as
`0x80` (second conjunct). -/
theorem zpng_c5_escape_unambiguous (n cnt : Nat) (cur ref m o : List Nat)
    (c : Nat) (hp : packVideoGo n cnt cur ref = some (m, o, c)) :
    m.count 128 = o.length ∧
    (∀ a r : Nat, ¬(127 < (a : Int) - r ∨ (a : Int) - r < -127) →
      bsub a r ≠ 128) :=
  ⟨packVideoGo_count128 n cnt cur ref m o c hp,
    fun a r h => bsub_ne_128 a r h⟩

/-- C5 witness: the pass over `[0, 200]` against `[0, 0]` emits the main
stream `[0, 0x80]` with overflow region `[200]`: one escape, one literal. -/
theorem zpng_c5_witness :
    ([0, 128] : List Nat).count 128 = ([200] : List Nat).length :=
  (zpng_c5_escape_unambiguous 2 0 [0, 200] [0, 0] [0, 128] [200] 1
    (by decide)).1

/-- C3 (corrected): `PackAndFilterVideo` returns the overflow count
whenever at most 1000 deltas are out of range (in particular 999 gives
999 and exactly 1000 gives 1000, with no fallback); only when a 1001st
out-of-range delta is encountered does it abandon the pass and return
`-1`, rewriting the buffer from its start with the intra XGGY encoding
of the current image — asserted where the compressed slice is exactly
the XGGY extent (`byteCount = w * h` with even dimensions); beyond that
extent the C code leaves the aborted delta pass's bytes in place, which
the model does not reproduce. -/
theorem zpng_c3_saturation (refD curD : ZPNG_ImageData) :
    (oorCount (byteCountOf curD) curD.Buffer refD.Buffer ≤ 1000 →
      (PackAndFilterVideo refD curD).2 =
        oorCount (byteCountOf curD) curD.Buffer refD.Buffer) ∧
    (1000 < oorCount (byteCountOf curD) curD.Buffer refD.Buffer →
      (PackAndFilterVideo refD curD).2 = -1) ∧
    (1000 < oorCount (byteCountOf curD) curD.Buffer refD.Buffer →
      byteCountOf curD = curD.WidthPixels * curD.HeightPixels →
      curD.WidthPixels % 2 = 0 → curD.HeightPixels % 2 = 0 →
      (PackAndFilterVideo refD curD).1 =
        PackAndFilterXGGY curD.WidthPixels curD.HeightPixels curD.Buffer) :=
  PackAndFilterVideo_spec refD curD

/-- C3 witness: the 999-escape pair returns 999 (no fallback), while the
saturating even-dimension 34x34 pair returns `-1` with its buffer the
XGGY re-encode of the current frame. -/
theorem zpng_c3_witness :
    (PackAndFilterVideo zpngRef999 zpngCur999).2 = 999 ∧
    (PackAndFilterVideo zpngRefSat zpngCurSat).2 = -1 ∧
    (PackAndFilterVideo zpngRefSat zpngCurSat).1 =
      PackAndFilterXGGY zpngCurSat.WidthPixels zpngCurSat.HeightPixels
        zpngCurSat.Buffer := by
  have hbc : byteCountOf zpngCur999 = 999 := by decide
  have hcount : oorCount (byteCountOf zpngCur999) zpngCur999.Buffer
      zpngRef999.Buffer = 999 := by
    rw [hbc]
    apply oorCount_of_oor
    intro i hi
    have h1 : zpngCur999.Buffer.getD i 0 = 200 := getD_replicate 200 0 999 i hi
    have h2 : zpngRef999.Buffer.getD i 0 = 0 := getD_replicate 0 0 999 i hi
    rw [h1, h2]
    left
    norm_num
  have hcountS : oorCount (byteCountOf zpngCurSat) zpngCurSat.Buffer
      zpngRefSat.Buffer = 1156 := by
    rw [show byteCountOf zpngCurSat = 1156 from by decide]
    apply oorCount_of_oor
    intro i hi
    have href : zpngRefSat.Buffer.getD i 0 = 0 := getD_replicate 0 0 1156 i hi
    have hcur : 200 ≤ zpngCurSat.Buffer.getD i 0 := by
      show 200 ≤ (200 :: 201 :: 202 :: List.replicate 1153 200).getD i 0
      match i with
      | 0 => decide
      | 1 => decide
      | 2 => decide
      | j + 3 =>
          rw [List.getD_cons_succ, List.getD_cons_succ, List.getD_cons_succ,
            getD_replicate 200 0 1153 j (by omega)]
    rw [href]
    left
    omega
  refine ⟨?_, ?_, ?_⟩
  · have h := (zpng_c3_saturation zpngRef999 zpngCur999).1 (by omega)
    rw [h, hcount]
    norm_num
  · exact (zpng_c3_saturation zpngRefSat zpngCurSat).2.1 (by omega)
  · exact (zpng_c3_saturation zpngRefSat zpngCurSat).2.2 (by omega)
      (by decide) (by decide) (by decide)

/-- C3 counterexample: a pair with exactly 1000 out-of-range deltas does
*not* trigger the fallback — the count check `overflowCount == 1000` runs
before emitting, so the pass completes and returns 1000, not `-1`. -/
theorem zpng_c3_counterexample :
    oorCount (byteCountOf zpngCur1000) zpngCur1000.Buffer zpngRef1000.Buffer
      = 1000 ∧
    (PackAndFilterVideo zpngRef1000 zpngCur1000).2 = 1000 ∧
    (PackAndFilterVideo zpngRef1000 zpngCur1000).2 ≠ -1 := by
  have hbc : byteCountOf zpngCur1000 = 1000 := by decide
  have hcount : oorCount (byteCountOf zpngCur1000) zpngCur1000.Buffer
      zpngRef1000.Buffer = 1000 := by
    rw [hbc]
    apply oorCount_of_oor
    intro i hi
    have h1 : zpngCur1000.Buffer.getD i 0 = 200 := getD_replicate 200 0 1000 i hi
    have h2 : zpngRef1000.Buffer.getD i 0 = 0 := getD_replicate 0 0 1000 i hi
    rw [h1, h2]
    left
    norm_num
  have h := (PackAndFilterVideo_spec zpngRef1000 zpngCur1000).1 (by omega)
  refine ⟨hcount, ?_, ?_⟩
  · rw [h, hcount]
    norm_num
  · rw [h, hcount]
    decide

/-- C1 (corrected): intra round trip.  For every descriptor within the
header's numeric domains whose buffer is `byteCount` well-formed bytes,
`ZPNG_DecompressVideo none (ZPNG_Compress d)` restores the dimensions,
channel count, depth and the exact pixel bytes — for every non-Bayer
format with `pixelBytes ∈ [1..8]`, and for the Bayer sentinel
(`bytes_per_channel > 8`) only with a single channel and even dimensions
(`validIntra`); with two or more channels the Bayer path drops the
trailing bytes (see the counterexample). -/
theorem zpng_c1_intra_roundtrip (d : ZPNG_ImageData)
    (hw : d.WidthPixels < 65536) (hh : d.HeightPixels < 65536)
    (hch : d.Channels < 256) (hbpc : d.BytesPerChannel < 256)
    (hbuf : d.Buffer.length = byteCountOf d)
    (hin : ∀ b ∈ d.Buffer, b < 256)
    (hpath : validIntra d) :
    (ZPNG_DecompressVideo none ((ZPNG_Compress d).getD [])).WidthPixels
      = d.WidthPixels ∧
    (ZPNG_DecompressVideo none ((ZPNG_Compress d).getD [])).HeightPixels
      = d.HeightPixels ∧
    (ZPNG_DecompressVideo none ((ZPNG_Compress d).getD [])).Channels
      = d.Channels ∧
    (ZPNG_DecompressVideo none ((ZPNG_Compress d).getD [])).BytesPerChannel
      = d.BytesPerChannel ∧
    (ZPNG_DecompressVideo none ((ZPNG_Compress d).getD [])).Buffer
      = d.Buffer := by
  have hpb8 : pixelBytesOf d ≤ 8 := by
    rcases hpath with ⟨_, _, h8⟩ | ⟨hbgt, hch1, _, _⟩
    · exact h8
    · unfold pixelBytesOf
      rw [if_pos hbgt, hch1]
      omega
  rw [ZPNG_Compress_eq d hpb8, Option.getD_some]
  rw [ZPNG_DecompressVideo_intra none d.WidthPixels d.HeightPixels d.Channels
    d.BytesPerChannel _ hw hh hch hbpc]
  have hbc : (if d.BytesPerChannel > 8 then d.Channels
      else d.BytesPerChannel * d.Channels) * (d.WidthPixels * d.HeightPixels)
      = byteCountOf d := rfl
  rw [hbc]
  rw [padTo_eq_self (byteCountOf d) (PackAndFilterDispatch d)
    (dispatch_length d hpath)]
  rw [padTo_eq_append (byteCountOf d) 1000 (PackAndFilterDispatch d)
    (dispatch_length d hpath)]
  rw [dispatch_roundtrip d _ hin hbuf hpath]
  rw [padTo_eq_self (byteCountOf d) d.Buffer hbuf]
  exact ⟨rfl, rfl, rfl, rfl, rfl⟩

/-- C1 witness at the 2x1 grayscale image `[5, 7]`. -/
theorem zpng_c1_witness :
    (ZPNG_DecompressVideo none ((ZPNG_Compress zpngC1Img).getD [])).Buffer
      = zpngC1Img.Buffer :=
  (zpng_c1_intra_roundtrip zpngC1Img (by decide) (by decide) (by decide)
    (by decide) (by decide) (by decide)
    (Or.inl ⟨by decide, by decide, by decide⟩)).2.2.2.2

/-- C1 counterexample: the claim also covers the Bayer sentinel with
channels in [1..8], but for 2 channels (2x2, bytes `1..8`) the XGGY filter
packs only `w*h` bytes, so decompression returns
`[1, 2, 3, 4, 0, 0, 0, 0]`, not the original buffer. -/
theorem zpng_c1_counterexample :
    (ZPNG_DecompressVideo none ((ZPNG_Compress zpngC1Bayer).getD [])).Buffer
      ≠ zpngC1Bayer.Buffer := by decide

/-- C2 (corrected): video round trip.  For every same-shape pair with
`pixelBytes ∈ [1..8]` and well-formed current buffer,
`decompress_video(ref, compress_video(ref, cur))` restores `cur`'s bytes
exactly — provided the inter pass does not saturate (the added
`packVideoGo ... ≠ none` hypothesis); a saturating pair falls back to the
Bayer intra encoding, which a non-Bayer header does not decode back (see
the counterexample). -/
theorem zpng_c2_video_roundtrip (refD curD : ZPNG_ImageData)
    (hw : curD.WidthPixels < 65536) (hh : curD.HeightPixels < 65536)
    (hch : curD.Channels < 256) (hbpc : curD.BytesPerChannel < 256)
    (hsw : refD.WidthPixels = curD.WidthPixels)
    (hsh : refD.HeightPixels = curD.HeightPixels)
    (hsc : refD.Channels = curD.Channels)
    (hsb : refD.BytesPerChannel = curD.BytesPerChannel)
    (hpb1 : 1 ≤ pixelBytesOf curD) (hpb8 : pixelBytesOf curD ≤ 8)
    (hbufc : curD.Buffer.length = byteCountOf curD)
    (hinc : ∀ b ∈ curD.Buffer, b < 256)
    (hns : packVideoGo (byteCountOf curD) 0 curD.Buffer refD.Buffer ≠ none) :
    (ZPNG_DecompressVideo (some refD)
      ((ZPNG_CompressVideoToBuffer (some refD) curD 0).getD [])).Buffer
      = curD.Buffer := by
  rw [ZPNG_CompressVideoToBuffer_eq refD curD hpb1 hpb8, Option.getD_some]
  cases hp : packVideoGo (byteCountOf curD) 0 curD.Buffer refD.Buffer with
  | none => exact absurd hp hns
  | some tr =>
      obtain ⟨m, o, c⟩ := tr
      have hPV : PackAndFilterVideo refD curD =
          (padTo (byteCountOf curD) m ++ o, (c : Int)) := by
        unfold PackAndFilterVideo
        rw [hp]
      rw [hPV]
      dsimp only
      rw [if_pos (Int.natCast_nonneg c)]
      have hm : m.length = byteCountOf curD :=
        packVideoGo_main_length _ _ _ _ _ _ _ hp
      rw [padTo_eq_self _ m hm]
      rw [ZPNG_DecompressVideo_video refD curD.WidthPixels curD.HeightPixels
        curD.Channels curD.BytesPerChannel (m ++ o) hw hh hch hbpc]
      have hpbe : (if curD.BytesPerChannel > 8 then curD.Channels
          else curD.BytesPerChannel * curD.Channels) = pixelBytesOf curD := rfl
      rw [hpbe]
      have hbc2 : pixelBytesOf curD * (curD.WidthPixels * curD.HeightPixels)
          = byteCountOf curD := rfl
      rw [hbc2]
      rw [if_pos (show 1 ≤ pixelBytesOf curD ∧ pixelBytesOf curD ≤ 8 from
        ⟨hpb1, hpb8⟩)]
      have holen : o.length ≤ 1000 := by
        have h1 := packVideoGo_overflow_length _ _ _ _ _ _ _ hp
        have h3 := (packVideoGo_isSome_iff (byteCountOf curD) 0 curD.Buffer
          refD.Buffer (by omega)).mp (by rw [hp]; rfl)
        have h2 := packVideoGo_count _ _ _ _ _ _ _ hp
        omega
      have hlenmo : (m ++ o).length = byteCountOf curD + o.length := by
        rw [List.length_append, hm]
      have hpad : padTo (byteCountOf curD + 1000) (m ++ o) =
          m ++ (o ++ List.replicate (1000 - o.length) 0) := by
        rw [padTo_eq_append_of_le _ _ (by omega), hlenmo]
        rw [show byteCountOf curD + 1000 - (byteCountOf curD + o.length)
          = 1000 - o.length from by omega]
        rw [List.append_assoc]
      rw [hpad]
      rw [List.drop_left' hm]
      rw [unpackVideoGo_packVideoGo (byteCountOf curD) 0 curD.Buffer
        refD.Buffer m o c (o ++ List.replicate (1000 - o.length) 0)
        (List.replicate (1000 - o.length) 0) hinc (by omega) hp]
      rw [show curD.Buffer.take (byteCountOf curD) = curD.Buffer from by
        rw [← hbufc, List.take_length]]
      exact padTo_eq_self _ _ hbufc

/-- C2 witness at a 3x1 pair with one escaping delta. -/
theorem zpng_c2_witness :
    (ZPNG_DecompressVideo (some zpngRefV)
      ((ZPNG_CompressVideoToBuffer (some zpngRefV) zpngCurV 0).getD [])).Buffer
      = zpngCurV.Buffer :=
  zpng_c2_video_roundtrip zpngRefV zpngCurV (by decide) (by decide) (by decide)
    (by decide) (by decide) (by decide) (by decide) (by decide) (by decide)
    (by decide) (by decide) (by decide) (by decide)

/-- C2 counterexample: a same-shape pair with `pixelBytes = 1` whose every
delta overflows saturates the escape counter; the encoder silently
re-encodes with the Bayer XGGY intra filter, but the decoder (seeing
`BytesPerChannel = 1` in the header) applies the generic unfilter, so the
pixels come back wrong. -/
theorem zpng_c2_counterexample :
    (ZPNG_DecompressVideo (some zpngRefSat)
      ((ZPNG_CompressVideoToBuffer (some zpngRefSat) zpngCurSat 0).getD [])).Buffer
      ≠ zpngCurSat.Buffer := by
  have hoorall : ∀ i, i < 1156 →
      (127 < (zpngCurSat.Buffer.getD i 0 : Int) - zpngRefSat.Buffer.getD i 0 ∨
        (zpngCurSat.Buffer.getD i 0 : Int) - zpngRefSat.Buffer.getD i 0 < -127) := by
    intro i hi
    have href : zpngRefSat.Buffer.getD i 0 = 0 := getD_replicate 0 0 1156 i hi
    have hcur : 200 ≤ zpngCurSat.Buffer.getD i 0 := by
      show 200 ≤ (200 :: 201 :: 202 :: List.replicate 1153 200).getD i 0
      match i with
      | 0 => decide
      | 1 => decide
      | 2 => decide
      | j + 3 =>
          rw [List.getD_cons_succ, List.getD_cons_succ, List.getD_cons_succ,
            getD_replicate 200 0 1153 j (by omega)]
    rw [href]
    left
    omega
  have hsat : packVideoGo (byteCountOf zpngCurSat) 0 zpngCurSat.Buffer
      zpngRefSat.Buffer = none := by
    have hbc : byteCountOf zpngCurSat = 1156 := by decide
    rw [hbc]
    exact packVideoGo_sat_of_oor 1156 0 _ _ (by omega) (by omega) hoorall
  rw [ZPNG_CompressVideoToBuffer_eq zpngRefSat zpngCurSat (by decide) (by decide),
    Option.getD_some]
  have hPV : PackAndFilterVideo zpngRefSat zpngCurSat =
      (padTo (byteCountOf zpngCurSat)
        (PackAndFilterXGGY zpngCurSat.WidthPixels zpngCurSat.HeightPixels
          zpngCurSat.Buffer), -1) := by
    unfold PackAndFilterVideo
    rw [hsat]
  rw [hPV]
  dsimp only
  rw [if_neg (show ¬((0 : Int) ≤ -1) from by decide)]
  rw [show zpngCurSat.WidthPixels = 34 from rfl,
    show zpngCurSat.HeightPixels = 34 from rfl,
    show zpngCurSat.Channels = 1 from rfl,
    show zpngCurSat.BytesPerChannel = 1 from rfl]
  rw [ZPNG_DecompressVideo_intra (some zpngRefSat) 34 34 1 1 _
    (by decide) (by decide) (by decide) (by decide)]
  intro hEq
  have hgetD := congrArg (fun l => l.getD 1 0) hEq
  exact absurd hgetD (by decide)

/-- Saturation of the inter pass on the all-200 vs all-zero 34x34
Bayer-sentinel pair: every delta is +200, out of range. -/
theorem packVideoGo_satB :
    packVideoGo (byteCountOf zpngCurSatB) 0 zpngCurSatB.Buffer zpngRefSatB.Buffer
      = none := by
  have hoorall : ∀ i, i < 1156 →
      (127 < (zpngCurSatB.Buffer.getD i 0 : Int) - zpngRefSatB.Buffer.getD i 0 ∨
        (zpngCurSatB.Buffer.getD i 0 : Int) - zpngRefSatB.Buffer.getD i 0 < -127) := by
    intro i hi
    rw [show zpngCurSatB.Buffer = List.replicate 1156 200 from rfl,
      show zpngRefSatB.Buffer = List.replicate 1156 0 from rfl,
      getD_replicate 200 0 1156 i hi, getD_replicate 0 0 1156 i hi]
    decide
  rw [show byteCountOf zpngCurSatB = 1156 from by decide]
  exact packVideoGo_sat_of_oor 1156 0 _ _ (by omega) (by omega) hoorall

/-- C4 (corrected): intra fallback.  For every saturating pair with
`pixel_bytes ∈ [1..8]` and in-range header fields, the produced buffer
carries the intra header magic and the decoder accepts it with
`IsIFrame = 1`; byte-identical reconstruction of the current frame holds
under the further hypotheses of a genuine Bayer descriptor
(`bytes_per_channel > 8`, one channel, even dimensions): the fallback
always re-encodes with the Bayer XGGY filter while the decoder picks its
unfilter from the header's bytes-per-channel, so any other descriptor
shape decodes to different pixels (see the counterexample). -/
theorem zpng_c4_fallback (refD curD : ZPNG_ImageData)
    (hw : curD.WidthPixels < 65536) (hh : curD.HeightPixels < 65536)
    (hch : curD.Channels < 256) (hbpc : curD.BytesPerChannel < 256)
    (hpb1 : 1 ≤ pixelBytesOf curD) (hpb8 : pixelBytesOf curD ≤ 8)
    (hsat : packVideoGo (byteCountOf curD) 0 curD.Buffer refD.Buffer = none) :
    ((ZPNG_CompressVideoToBuffer (some refD) curD 0).getD []).getD 0 0 +
      256 * ((ZPNG_CompressVideoToBuffer (some refD) curD 0).getD []).getD 1 0
      = ZPNG_HEADER_MAGIC ∧
    (ZPNG_DecompressVideo (some refD)
      ((ZPNG_CompressVideoToBuffer (some refD) curD 0).getD [])).IsIFrame = 1 ∧
    (8 < curD.BytesPerChannel → curD.Channels = 1 →
      curD.WidthPixels % 2 = 0 → curD.HeightPixels % 2 = 0 →
      curD.Buffer.length = byteCountOf curD → (∀ b ∈ curD.Buffer, b < 256) →
      (ZPNG_DecompressVideo (some refD)
        ((ZPNG_CompressVideoToBuffer (some refD) curD 0).getD [])).Buffer
        = curD.Buffer) := by
  rw [ZPNG_CompressVideoToBuffer_eq refD curD hpb1 hpb8, Option.getD_some]
  have hPV : PackAndFilterVideo refD curD =
      (padTo (byteCountOf curD)
        (PackAndFilterXGGY curD.WidthPixels curD.HeightPixels curD.Buffer),
        -1) := by
    unfold PackAndFilterVideo
    rw [hsat]
  rw [hPV]
  dsimp only
  rw [if_neg (show ¬((0 : Int) ≤ -1) from by decide)]
  refine ⟨?_, ?_, ?_⟩
  · unfold headerBytes
    rw [list8_getD0, list8_getD1, intra_magic_val]
  · rw [ZPNG_DecompressVideo_intra (some refD) curD.WidthPixels
      curD.HeightPixels curD.Channels curD.BytesPerChannel _ hw hh hch hbpc]
  · intro hbpc8 hch1 hwe hhe hbufc hinc
    have hpbe : pixelBytesOf curD = curD.Channels := by
      simp [pixelBytesOf, hbpc8]
    have hXlen : (PackAndFilterXGGY curD.WidthPixels curD.HeightPixels
        curD.Buffer).length = byteCountOf curD := by
      rw [PackAndFilterXGGY_length _ _ _ hwe hhe]
      rw [show byteCountOf curD
        = pixelBytesOf curD * (curD.WidthPixels * curD.HeightPixels) from rfl]
      rw [hpbe, hch1]
      ring
    rw [ZPNG_DecompressVideo_intra (some refD) curD.WidthPixels
      curD.HeightPixels curD.Channels curD.BytesPerChannel _ hw hh hch hbpc]
    rw [show (if curD.BytesPerChannel > 8 then curD.Channels
      else curD.BytesPerChannel * curD.Channels)
      * (curD.WidthPixels * curD.HeightPixels) = byteCountOf curD from rfl]
    rw [padTo_eq_self _ _ hXlen]
    have hXle : (PackAndFilterXGGY curD.WidthPixels curD.HeightPixels
        curD.Buffer).length ≤ byteCountOf curD + 1000 := by
      rw [hXlen]
      omega
    rw [padTo_eq_append_of_le _ _ hXle]
    have hdisp : PackAndFilterDispatch curD = PackAndFilterXGGY
        curD.WidthPixels curD.HeightPixels curD.Buffer := by
      unfold PackAndFilterDispatch
      rw [if_pos hbpc8]
    rw [← hdisp]
    rw [dispatch_roundtrip curD _ hinc hbufc (Or.inr ⟨hbpc8, hch1, hwe, hhe⟩)]
    exact padTo_eq_self _ _ hbufc

/-- C4 witness at the saturating Bayer-sentinel 34x34 pair: intra magic,
`IsIFrame = 1`, and exact reconstruction. -/
theorem zpng_c4_witness :
    ((ZPNG_CompressVideoToBuffer (some zpngRefSatB) zpngCurSatB 0).getD
        []).getD 0 0 +
      256 * ((ZPNG_CompressVideoToBuffer (some zpngRefSatB) zpngCurSatB
        0).getD []).getD 1 0 = ZPNG_HEADER_MAGIC ∧
    (ZPNG_DecompressVideo (some zpngRefSatB)
      ((ZPNG_CompressVideoToBuffer (some zpngRefSatB) zpngCurSatB
        0).getD [])).IsIFrame = 1 ∧
    (ZPNG_DecompressVideo (some zpngRefSatB)
      ((ZPNG_CompressVideoToBuffer (some zpngRefSatB) zpngCurSatB
        0).getD [])).Buffer = zpngCurSatB.Buffer := by
  have h := zpng_c4_fallback zpngRefSatB zpngCurSatB (by decide) (by decide)
    (by decide) (by decide) (by decide) (by decide) packVideoGo_satB
  refine ⟨h.1, h.2.1, h.2.2 (by decide) (by decide) (by decide) (by decide)
    (by rw [show zpngCurSatB.Buffer = List.replicate 1156 200 from rfl, List.length_replicate]; decide)
    ?_⟩
  intro b hb
  rw [show zpngCurSatB.Buffer = List.replicate 1156 200 from rfl] at hb
  have hb200 := List.eq_of_mem_replicate hb
  omega

/-- C4 counterexample: a saturating pair whose current frame has
`bytes_per_channel = 1`.  The fallback writes the Bayer XGGY encoding
under the intra magic, but the decoder (seeing one byte per channel)
applies the generic unfilter, so the reconstructed pixels differ from
the current frame and the fallback is not transparent. -/
theorem zpng_c4_counterexample :
    (PackAndFilterVideo zpngRefSat zpngCurSat2).2 = -1 ∧
    (ZPNG_DecompressVideo (some zpngRefSat)
      ((ZPNG_CompressVideoToBuffer (some zpngRefSat) zpngCurSat2 0).getD
        [])).Buffer ≠ zpngCurSat2.Buffer := by
  have hoorall : ∀ i, i < 1156 →
      (127 < (zpngCurSat2.Buffer.getD i 0 : Int) - zpngRefSat.Buffer.getD i 0 ∨
        (zpngCurSat2.Buffer.getD i 0 : Int) - zpngRefSat.Buffer.getD i 0 < -127) := by
    intro i hi
    have href : zpngRefSat.Buffer.getD i 0 = 0 := getD_replicate 0 0 1156 i hi
    have hcur : 200 ≤ zpngCurSat2.Buffer.getD i 0 := by
      show 200 ≤ (200 :: 205 :: 210 :: List.replicate 1153 200).getD i 0
      match i with
      | 0 => decide
      | 1 => decide
      | 2 => decide
      | j + 3 =>
          rw [List.getD_cons_succ, List.getD_cons_succ, List.getD_cons_succ,
            getD_replicate 200 0 1153 j (by omega)]
    rw [href]
    left
    omega
  have hsat : packVideoGo (byteCountOf zpngCurSat2) 0 zpngCurSat2.Buffer
      zpngRefSat.Buffer = none := by
    rw [show byteCountOf zpngCurSat2 = 1156 from by decide]
    exact packVideoGo_sat_of_oor 1156 0 _ _ (by omega) (by omega) hoorall
  have hPV : PackAndFilterVideo zpngRefSat zpngCurSat2 =
      (padTo (byteCountOf zpngCurSat2)
        (PackAndFilterXGGY zpngCurSat2.WidthPixels zpngCurSat2.HeightPixels
          zpngCurSat2.Buffer), -1) := by
    unfold PackAndFilterVideo
    rw [hsat]
  refine ⟨by rw [hPV], ?_⟩
  rw [ZPNG_CompressVideoToBuffer_eq zpngRefSat zpngCurSat2 (by decide)
    (by decide), Option.getD_some]
  rw [hPV]
  dsimp only
  rw [if_neg (show ¬((0 : Int) ≤ -1) from by decide)]
  rw [show zpngCurSat2.WidthPixels = 34 from rfl,
    show zpngCurSat2.HeightPixels = 34 from rfl,
    show zpngCurSat2.Channels = 1 from rfl,
    show zpngCurSat2.BytesPerChannel = 1 from rfl]
  rw [ZPNG_DecompressVideo_intra (some zpngRefSat) 34 34 1 1 _
    (by decide) (by decide) (by decide) (by decide)]
  intro hEq
  have hgetD := congrArg (fun l => l.getD 1 0) hEq
  exact absurd hgetD (by decide)
